import Mathlib

/-!
# OcrEngine: a shallow embedding of `ocr_engine.cpp`

The orchestration layer of the OCR pipeline (`app/src/main/cpp/ocr_engine.cpp`)
is embedded as pure Lean functions.

* `float` is IEEE 754 binary32. A value is the rational number it denotes, and
  every arithmetic operation rounds its exact result to the nearest `float`,
  ties to even (`f32`, `fadd`, `fsub`, `fmul`, `fdiv`); comparisons, `std::abs`,
  `std::min` and `std::max` are exact. Overflow to infinity and NaN are outside
  the model.
* The detector and the recognizer are objects with internal state; their
  methods are state transformers supplied by an `Env`.
* `std::sort` and `high_resolution_clock::now` are supplied from outside:
  `std::sort` as a function subject to the contract of the C++ standard
  (`StdSortContract`), the clock as the sequence of its readings. One
  implementation of `std::sort`, that of GNU libstdc++, is embedded as `gnuSort`.
* Every call to a collaborator is recorded in a list of `Call`s, so that
  statements of the form "the recognizer is not invoked" can be expressed.
-/

namespace ppocrv5

/-! ## Data model -/

/-- Modelled from the spec: `AcceleratorType` is declared in a header that is not
among the sources (`litert_config.h`); the spec lists the variants NPU, GPU, CPU. -/
inductive AcceleratorType where
  | kNpu
  | kGpu
  | kCpu
  deriving DecidableEq, Repr

/-- Modelled from the spec: `RotatedRect` is declared in a header that is not among
the sources; these are the fields the spec lists and the code reads and writes. -/
structure RotatedRect where
  center_x : ℚ
  center_y : ℚ
  width : ℚ
  height : ℚ
  confidence : ℚ
  deriving DecidableEq, Repr

instance : Inhabited RotatedRect := ⟨⟨0, 0, 0, 0, 0⟩⟩

/-- Modelled from the spec: `OcrResult` is declared in `ocr_engine.h`, which is not
among the sources: transcribed text, confidence and the originating box. -/
structure OcrResult where
  text : String
  confidence : ℚ
  box : RotatedRect
  deriving DecidableEq, Repr

/-- Modelled from the spec: `Benchmark` is declared in `ocr_engine.h`, which is not
among the sources: the three timings in milliseconds and the derived fps. -/
structure Benchmark where
  detection_time_ms : ℚ
  recognition_time_ms : ℚ
  total_time_ms : ℚ
  fps : ℚ
  deriving DecidableEq, Repr

/-- A raw pixel buffer as handed to `Process` and to the detector: the bytes
behind `image_data` together with `width`, `height` and `stride`. -/
structure Image where
  data : List Nat
  width : Int
  height : Int
  stride : Int
  deriving DecidableEq, Repr

/-- What `TextRecognizer::Recognize` hands back: the recognised text, its
confidence, and the elapsed time written through `rec_time_ms`. -/
structure RecognitionResult where
  text : String
  confidence : ℚ
  rec_time_ms : ℚ
  deriving DecidableEq, Repr

/-! ## `float` arithmetic -/

/-- The number of halvings that bring `n` below 2, in at most `fuel` steps: with
`fuel = n` this is the position of the leading bit of `n`. -/
def log2Fuel : Nat → Nat → Nat
  | 0, _ => 0
  | fuel + 1, n => if n < 2 then 0 else log2Fuel fuel (n / 2) + 1

/-- The power `2 ^ k` for an integer exponent. -/
def pow2 (k : Int) : ℚ :=
  if 0 ≤ k then ((2 ^ k.toNat : Nat) : ℚ) else 1 / ((2 ^ (-k).toNat : Nat) : ℚ)

/-- For `y > 0`, the exponent `k` with `2 ^ k ≤ y < 2 ^ (k + 1)`. -/
def floorLog2 (y : ℚ) : Int :=
  if y < pow2 ((log2Fuel y.num.natAbs y.num.natAbs : Int) - (log2Fuel y.den y.den : Int)) then
    (log2Fuel y.num.natAbs y.num.natAbs : Int) - (log2Fuel y.den y.den : Int) - 1
  else (log2Fuel y.num.natAbs y.num.natAbs : Int) - (log2Fuel y.den y.den : Int)

/-- Rounding to the nearest integer, ties to the even one. -/
def roundHalfEven (s : ℚ) : Int :=
  if s - (⌊s⌋ : ℚ) < 1 / 2 then ⌊s⌋
  else if 1 / 2 < s - (⌊s⌋ : ℚ) then ⌊s⌋ + 1
  else if ⌊s⌋ % 2 = 0 then ⌊s⌋
  else ⌊s⌋ + 1

/-- Rounding of `y > 0` to binary32: a 24-bit significand times a power of two,
the exponent not below that of the subnormal numbers. -/
def f32Mag (y : ℚ) : ℚ :=
  (roundHalfEven (y / pow2 (max (floorLog2 y - 23) (-149))) : ℚ) *
    pow2 (max (floorLog2 y - 23) (-149))

/-- Rounding to the nearest `float` (IEEE 754 binary32, ties to even). -/
def f32 (x : ℚ) : ℚ :=
  if x = 0 then 0 else if x < 0 then -(f32Mag (-x)) else f32Mag x

/-- `a + b` on `float`. -/
def fadd (a b : ℚ) : ℚ := f32 (a + b)

/-- `a - b` on `float`. -/
def fsub (a b : ℚ) : ℚ := f32 (a - b)

/-- `a * b` on `float`. -/
def fmul (a b : ℚ) : ℚ := f32 (a * b)

/-- `a / b` on `float`. -/
def fdiv (a b : ℚ) : ℚ := f32 (a / b)

/-! ## Constants of the anonymous namespace -/

def kFallbackChain : List AcceleratorType := [AcceleratorType.kGpu, AcceleratorType.kCpu]

def kFallbackChainSize : Nat := 2

def kWarmupIterations : Nat := 3

def kWarmupImageSize : Nat := 128

def kMinBoxArea : ℚ := 4

def kMinConfidenceThreshold : ℚ := 0

def kMaxBoxesPerFrame : Nat := 200

/-- `GetFallbackStartIndex`: GPU and NPU start at 0, CPU (and anything else) at 1. -/
def GetFallbackStartIndex (requested : AcceleratorType) : Nat :=
  match requested with
  | AcceleratorType.kGpu => 0
  | AcceleratorType.kNpu => 0
  | AcceleratorType.kCpu => 1

/-! ## Box merger -/

/-- The two nested tests of the inner loop body (lines 88-97): vertical alignment
`dy < h_avg * 0.15f`, then horizontal gap `x_dist < h_avg * 0.20f`. -/
def mergeCondition (b1 b2 : RotatedRect) : Bool :=
  let h_avg := fdiv (fadd b1.height b2.height) 2
  let dy := |fsub b1.center_y b2.center_y|
  if dy < fmul h_avg (f32 (15 / 100)) then
    let x_dist := fsub |fsub b1.center_x b2.center_x| (fdiv (fadd b1.width b2.width) 2)
    if x_dist < fmul h_avg (f32 (20 / 100)) then true else false
  else false

/-- The new value written into `b1` on a merge (lines 98-107). -/
def mergedBox (b1 b2 : RotatedRect) : RotatedRect :=
  let min_x := min (fsub b1.center_x (fdiv b1.width 2)) (fsub b2.center_x (fdiv b2.width 2))
  let max_x := max (fadd b1.center_x (fdiv b1.width 2)) (fadd b2.center_x (fdiv b2.width 2))
  let min_y := min (fsub b1.center_y (fdiv b1.height 2)) (fsub b2.center_y (fdiv b2.height 2))
  let max_y := max (fadd b1.center_y (fdiv b1.height 2)) (fadd b2.center_y (fdiv b2.height 2))
  { center_x := fdiv (fadd min_x max_x) 2
    center_y := fdiv (fadd min_y max_y) 2
    width := fsub max_x min_x
    height := fsub max_y min_y
    confidence := max b1.confidence b2.confidence }

/-- The inner `for j` loop for a fixed `b1 = boxes[i]`, run over the boxes after
position `i`. On the first `b2` that passes both tests it yields the merged
`b1` and the remaining boxes with `b2` erased; `none` when no `j` merges. -/
def mergeInner (b1 : RotatedRect) : List RotatedRect → Option (RotatedRect × List RotatedRect)
  | [] => none
  | b2 :: rest =>
    if mergeCondition b1 b2 then some (mergedBox b1 b2, rest)
    else
      match mergeInner b1 rest with
      | some (m, rest') => some (m, b2 :: rest')
      | none => none

/-- One execution of the body of `while (merged)`: the outer `for i` loop. It
yields the vector after the first merge found (scanning pairs `i < j` in
lexicographic order), or `none` when the pass ends with `merged == false`. -/
def mergePass : List RotatedRect → Option (List RotatedRect)
  | [] => none
  | b1 :: rest =>
    match mergeInner b1 rest with
    | some (m, rest') => some (m :: rest')
    | none =>
      match mergePass rest with
      | some rest' => some (b1 :: rest')
      | none => none

/-- The `while (merged)` loop. Every pass that asks for another pass has erased
one box, so `boxes.size()` passes always suffice (`mergeWhile_fixed`); the first
argument counts the passes still allowed. -/
def mergeWhile : Nat → List RotatedRect → List RotatedRect
  | 0, boxes => boxes
  | fuel + 1, boxes =>
    match mergePass boxes with
    | some boxes' => mergeWhile fuel boxes'
    | none => boxes

/-- `MergeNearbyBoxesPrecision`: the vector left in `boxes` when the routine returns. -/
def MergeNearbyBoxesPrecision (boxes : List RotatedRect) : List RotatedRect :=
  if boxes.length < 2 then boxes else mergeWhile boxes.length boxes

/-! ## Collaborators and engine state -/

/-- Everything `ocr_engine.cpp` calls but does not define. `δ` and `ρ` are the
states of a `TextDetector` and of a `TextRecognizer` object; a method of such an
object maps the state before the call to its result and the state after it. -/
structure Env (δ ρ : Type) where
  /-- `TextDetector::Create(model_path, accelerator)`; `none` is the null pointer. -/
  detectorCreate : String → AcceleratorType → Option δ
  /-- `TextRecognizer::Create(model_path, keys_path, accelerator)`; `none` is null. -/
  recognizerCreate : String → String → AcceleratorType → Option ρ
  /-- `TextDetector::Detect`: the boxes and the time written to `detection_time_ms`. -/
  Detect : δ → Image → (List RotatedRect × ℚ) × δ
  /-- `TextRecognizer::Recognize` on one box. -/
  Recognize : ρ → Image → RotatedRect → RecognitionResult × ρ
  /-- `std::sort(first, last, comp)` on a vector of indices. -/
  std_sort : (Nat → Nat → Bool) → List Nat → List Nat
  /-- Value of `benchmark_` in a freshly constructed `OcrEngine` (set in `ocr_engine.h`). -/
  benchmark_init : Benchmark
  /-- Value of `active_accelerator_` in a freshly constructed `OcrEngine`. -/
  accelerator_init : AcceleratorType

/-- The members of `OcrEngine`; `none` is a null `unique_ptr`. -/
structure OcrEngine (δ ρ : Type) where
  detector_ : Option δ
  recognizer_ : Option ρ
  active_accelerator_ : AcceleratorType
  benchmark_ : Benchmark

/-- One call made to a collaborator, with the arguments that identify it. -/
inductive Call where
  | detectorCreate (model_path : String) (accelerator : AcceleratorType)
  | recognizerCreate (model_path keys_path : String) (accelerator : AcceleratorType)
  | detect (image : Image)
  | recognize (image : Image) (box : RotatedRect)
  deriving DecidableEq, Repr

/-- A comparator is a strict weak ordering, the requirement `std::sort` places on
`comp`: irreflexive, transitive, and with transitive incomparability. -/
def StrictWeakOrdering (comp : Nat → Nat → Bool) : Prop :=
  (∀ a, comp a a = false) ∧
  (∀ a b c, comp a b = true → comp b c = true → comp a c = true) ∧
  (∀ a b c, comp a b = false → comp b a = false → comp b c = false → comp c b = false →
    comp a c = false ∧ comp c a = false)

/-- The guarantee of `std::sort` for a strict weak ordering: the range is
rearranged (a permutation), and afterwards no element is ordered by `comp`
before an element that precedes it. Nothing is said about equivalent elements. -/
structure StdSortContract (sort : (Nat → Nat → Bool) → List Nat → List Nat) : Prop where
  perm : ∀ comp l, StrictWeakOrdering comp → (sort comp l).Perm l
  sorted : ∀ comp l, StrictWeakOrdering comp →
    (sort comp l).Pairwise (fun a b => comp b a = false)

/-- One function that meets `StdSortContract`: insertion sort. -/
def insertionSortBy (comp : Nat → Nat → Bool) (l : List Nat) : List Nat :=
  List.insertionSort (fun a b => comp b a = false) l

/-! ## Pipeline stages -/

/-- `SortBoxesByArea`: `indices` is `0, 1, ..., boxes.size() - 1` sorted with the
comparator `boxes[a].width * boxes[a].height > boxes[b].width * boxes[b].height`,
both products computed in `float`. -/
def SortBoxesByArea (sort : (Nat → Nat → Bool) → List Nat → List Nat)
    (boxes : List RotatedRect) : List Nat :=
  sort
    (fun a b => decide (fmul (boxes.getD a default).width (boxes.getD a default).height >
      fmul (boxes.getD b default).width (boxes.getD b default).height))
    (List.range boxes.length)

/-- The filter loop of `Process` (lines 193-198): walk `boxes`, push a box whose
`float` product `width * height` is at least `kMinBoxArea`, and `break` once
`filtered_boxes` holds `kMaxBoxesPerFrame` boxes. The second argument is
`filtered_boxes` so far. -/
def filterLoop : List RotatedRect → List RotatedRect → List RotatedRect
  | [], filtered_boxes => filtered_boxes
  | box :: rest, filtered_boxes =>
    if fmul box.width box.height ≥ kMinBoxArea then
      if (filtered_boxes ++ [box]).length ≥ kMaxBoxesPerFrame then filtered_boxes ++ [box]
      else filterLoop rest (filtered_boxes ++ [box])
    else filterLoop rest filtered_boxes

/-- What the recognition loop leaves behind: `results`, the recognizer object
after the loop, and the calls made. -/
structure LoopReturn (ρ : Type) where
  results : List OcrResult
  recognizer : ρ
  calls : List Call

/-- The recognition loop of `Process` (lines 217-230) over `sorted_indices`:
recognise `filtered_boxes[idx]` and push a result when the text is not empty and
the confidence is at least `kMinConfidenceThreshold`. -/
def recognizeLoop {δ ρ : Type} (env : Env δ ρ) (image : Image)
    (filtered_boxes : List RotatedRect) : List Nat → ρ → LoopReturn ρ
  | [], recognizer => { results := [], recognizer := recognizer, calls := [] }
  | idx :: rest, recognizer =>
    let box := filtered_boxes.getD idx default
    let rec_result := env.Recognize recognizer image box
    let tail := recognizeLoop env image filtered_boxes rest rec_result.2
    if rec_result.1.text ≠ "" ∧ rec_result.1.confidence ≥ kMinConfidenceThreshold then
      { results := { text := rec_result.1.text, confidence := rec_result.1.confidence,
                     box := box } :: tail.results
        recognizer := tail.recognizer
        calls := Call.recognize image box :: tail.calls }
    else
      { results := tail.results
        recognizer := tail.recognizer
        calls := Call.recognize image box :: tail.calls }

/-- What a call of `Process` leaves behind: the returned vector, the engine
after the call, and the collaborator calls made, in order. -/
structure ProcessReturn (δ ρ : Type) where
  results : List OcrResult
  engine : OcrEngine δ ρ
  calls : List Call

/-- The benchmark written on each return path once `total_time_ms` is known:
`fps = total_time_ms > 0.0f ? 1000.0f / total_time_ms : 0.0f`, a `float` division. -/
def finalizeBenchmark (detection_time_ms recognition_time_ms total_time_ms : ℚ) : Benchmark :=
  { detection_time_ms := detection_time_ms
    recognition_time_ms := recognition_time_ms
    total_time_ms := total_time_ms
    fps := if total_time_ms > 0 then fdiv 1000 total_time_ms else 0 }

/-- `duration_cast<microseconds>(end - start).count() / 1000.0f`, with time points
given in microseconds: the integer count is converted to `float` and divided by
`1000.0f`. -/
def elapsedMs (start stop : Int) : ℚ := fdiv (f32 ((stop - start : Int) : ℚ)) 1000

/-- `OcrEngine::Process`. `clock k` is the reading of the `k`-th call of
`high_resolution_clock::now()` made during this call, in microseconds. -/
def Process {δ ρ : Type} (env : Env δ ρ) (clock : Nat → Int) (engine : OcrEngine δ ρ)
    (image : Image) : ProcessReturn δ ρ :=
  match engine.detector_, engine.recognizer_ with
  | some detector, some recognizer =>
    let total_start := clock 0
    let detected := env.Detect detector image
    let boxes := detected.1.1
    let detection_time_ms := detected.1.2
    if boxes = [] then
      let total_end := clock 1
      { results := []
        engine := { engine with
          detector_ := some detected.2
          benchmark_ := finalizeBenchmark detection_time_ms 0 (elapsedMs total_start total_end) }
        calls := [Call.detect image] }
    else
      let filtered_boxes := filterLoop (MergeNearbyBoxesPrecision boxes) []
      if filtered_boxes = [] then
        let total_end := clock 1
        { results := []
          engine := { engine with
            detector_ := some detected.2
            benchmark_ := finalizeBenchmark detection_time_ms 0 (elapsedMs total_start total_end) }
          calls := [Call.detect image] }
      else
        let sorted_indices := SortBoxesByArea env.std_sort filtered_boxes
        let rec_start := clock 1
        let looped := recognizeLoop env image filtered_boxes sorted_indices recognizer
        let rec_end := clock 2
        let total_end := clock 3
        { results := looped.results
          engine := { engine with
            detector_ := some detected.2
            recognizer_ := some looped.recognizer
            benchmark_ := finalizeBenchmark detection_time_ms (elapsedMs rec_start rec_end)
              (elapsedMs total_start total_end) }
          calls := Call.detect image :: looped.calls }
  | _, _ => { results := [], engine := engine, calls := [] }

/-! ## Warm-up and construction -/

/-- The pixel loop of `WarmUp` (lines 262-267) for `i = 0, ..., n - 1`. -/
def warmupPixels : Nat → List Nat → List Nat
  | 0, dummy_image => dummy_image
  | i + 1, dummy_image =>
    ((((warmupPixels i dummy_image).set (i * 4 + 0) ((i * 7) % 256)).set
      (i * 4 + 1) ((i * 11) % 256)).set (i * 4 + 2) ((i * 13) % 256)).set (i * 4 + 3) 255

/-- The buffer `WarmUp` hands to the detector, with the dimensions it passes. -/
def dummy_image : Image :=
  { data := warmupPixels (kWarmupImageSize * kWarmupImageSize)
      (List.replicate (kWarmupImageSize * kWarmupImageSize * 4) 128)
    width := kWarmupImageSize
    height := kWarmupImageSize
    stride := kWarmupImageSize * 4 }

/-- The detection loop of `WarmUp` (lines 269-273), `n` iterations: the detector
object afterwards and the calls made; the boxes are discarded. -/
def warmupLoop {δ ρ : Type} (env : Env δ ρ) : Nat → δ → δ × List Call
  | 0, detector => (detector, [])
  | n + 1, detector =>
    let tail := warmupLoop env n (env.Detect detector dummy_image).2
    (tail.1, Call.detect dummy_image :: tail.2)

/-- `OcrEngine::WarmUp`. `Create` calls it with the detector set. -/
def WarmUp {δ ρ : Type} (env : Env δ ρ) (engine : OcrEngine δ ρ) : OcrEngine δ ρ × List Call :=
  match engine.detector_ with
  | some detector =>
    let looped := warmupLoop env kWarmupIterations detector
    ({ engine with detector_ := some looped.1 }, looped.2)
  | none => (engine, [])

/-- The `for` loop of `Create` (lines 131-159) from index `i`, with `n` iterations
left (`n = kFallbackChainSize - i`). `none` stands for leaving the loop without
`return engine`. -/
def createLoop {δ ρ : Type} (env : Env δ ρ) (det_model_path rec_model_path keys_path : String)
    (engine : OcrEngine δ ρ) : Nat → Nat → Option (OcrEngine δ ρ) × List Call
  | 0, _ => (none, [])
  | n + 1, i =>
    let current_accelerator := kFallbackChain.getD i AcceleratorType.kCpu
    match env.detectorCreate det_model_path current_accelerator with
    | none =>
      let tail := createLoop env det_model_path rec_model_path keys_path engine n (i + 1)
      (tail.1, Call.detectorCreate det_model_path current_accelerator :: tail.2)
    | some detector =>
      match env.recognizerCreate rec_model_path keys_path current_accelerator with
      | none =>
        let tail := createLoop env det_model_path rec_model_path keys_path engine n (i + 1)
        (tail.1, Call.detectorCreate det_model_path current_accelerator ::
          Call.recognizerCreate rec_model_path keys_path current_accelerator :: tail.2)
      | some recognizer =>
        let warmed := WarmUp env { engine with
          detector_ := some detector
          recognizer_ := some recognizer
          active_accelerator_ := current_accelerator }
        (some warmed.1, Call.detectorCreate det_model_path current_accelerator ::
          Call.recognizerCreate rec_model_path keys_path current_accelerator :: warmed.2)

/-- `OcrEngine::Create`: the engine returned (`none` is `nullptr`) and the calls made. -/
def Create {δ ρ : Type} (env : Env δ ρ) (det_model_path rec_model_path keys_path : String)
    (accelerator_type : AcceleratorType) : Option (OcrEngine δ ρ) × List Call :=
  let engine : OcrEngine δ ρ :=
    { detector_ := none, recognizer_ := none
      active_accelerator_ := env.accelerator_init, benchmark_ := env.benchmark_init }
  let start_index := GetFallbackStartIndex accelerator_type
  createLoop env det_model_path rec_model_path keys_path engine
    (kFallbackChainSize - start_index) start_index

/-! ## Vocabulary of the specification -/

/-- Left extent of a box, `center_x - width / 2`. -/
def RotatedRect.left (b : RotatedRect) : ℚ := b.center_x - b.width / 2

/-- Right extent of a box, `center_x + width / 2`. -/
def RotatedRect.right (b : RotatedRect) : ℚ := b.center_x + b.width / 2

/-- Top extent of a box, `center_y - height / 2`. -/
def RotatedRect.top (b : RotatedRect) : ℚ := b.center_y - b.height / 2

/-- Bottom extent of a box, `center_y + height / 2`. -/
def RotatedRect.bottom (b : RotatedRect) : ℚ := b.center_y + b.height / 2

/-- The area of the source box of a result. -/
def OcrResult.boxArea (r : OcrResult) : ℚ := r.box.width * r.box.height

/-- The boxes on which the recognizer was invoked, in call order. -/
def recognizedBoxes (calls : List Call) : List RotatedRect :=
  calls.filterMap fun c =>
    match c with
    | Call.recognize _ box => some box
    | _ => none

/-- The accelerators on which construction was attempted, in call order: every
attempt starts with the detector's constructor. -/
def attemptedAccelerators (calls : List Call) : List AcceleratorType :=
  calls.filterMap fun c =>
    match c with
    | Call.detectorCreate _ accelerator => some accelerator
    | _ => none

/-- The accelerator a constructor call was made with, if the call is one. -/
def Call.constructedFor : Call → Option AcceleratorType
  | Call.detectorCreate _ accelerator => some accelerator
  | Call.recognizerCreate _ _ accelerator => some accelerator
  | _ => none

/-- Both constructions succeed on an accelerator. -/
def bothSucceed {δ ρ : Type} (env : Env δ ρ) (det_model_path rec_model_path keys_path : String)
    (accelerator : AcceleratorType) : Bool :=
  (env.detectorCreate det_model_path accelerator).isSome &&
    (env.recognizerCreate rec_model_path keys_path accelerator).isSome

/-- The candidates of the specification's fallback rule: GPU then CPU for a
requested GPU or NPU, CPU only for a requested CPU. -/
def fallbackCandidates : AcceleratorType → List AcceleratorType
  | AcceleratorType.kGpu => [AcceleratorType.kGpu, AcceleratorType.kCpu]
  | AcceleratorType.kNpu => [AcceleratorType.kGpu, AcceleratorType.kCpu]
  | AcceleratorType.kCpu => [AcceleratorType.kCpu]

/-- Trying candidates in order and stopping after the first full success: the
candidates up to and including the first one on which `ok` holds. -/
def triedUntilSuccess (ok : AcceleratorType → Bool) : List AcceleratorType → List AcceleratorType
  | [] => []
  | a :: rest => if ok a then [a] else a :: triedUntilSuccess ok rest

/-- The recognizer's answers when it is invoked on `boxes` one after the other,
starting from the object state `recognizer`: each box with the answer it got. -/
def recognizerAnswers {δ ρ : Type} (env : Env δ ρ) (image : Image) :
    List RotatedRect → ρ → List (RotatedRect × RecognitionResult)
  | [], _ => []
  | box :: rest, recognizer =>
    (box, (env.Recognize recognizer image box).1) ::
      recognizerAnswers env image rest (env.Recognize recognizer image box).2

/-- The acceptance rule of the specification: a result is appended for a box
exactly when the text is non-empty and the confidence is at least 0.0. -/
def acceptAnswer (a : RotatedRect × RecognitionResult) : Option OcrResult :=
  if a.2.text ≠ "" ∧ a.2.confidence ≥ 0 then
    some { text := a.2.text, confidence := a.2.confidence, box := a.1 }
  else none

/-- The boxes that survive merging, filtering and capping for a detector output. -/
def retainedBoxes (detected : List RotatedRect) : List RotatedRect :=
  filterLoop (MergeNearbyBoxesPrecision detected) []

/-- The retained boxes in the order in which the recognition loop visits them:
`filtered_boxes[idx]` for `idx` running through `sorted_indices`. -/
def sortedBoxes (sort : (Nat → Nat → Bool) → List Nat → List Nat)
    (filtered_boxes : List RotatedRect) : List RotatedRect :=
  (SortBoxesByArea sort filtered_boxes).map (fun idx => filtered_boxes.getD idx default)

/-- The merge test in the words of the specification, with
`h_avg = (height(b1) + height(b2)) / 2`: vertical centre offset below
`0.15 * h_avg` and horizontal gap below `0.20 * h_avg`. -/
def mergeable (b1 b2 : RotatedRect) : Prop :=
  |b1.center_y - b2.center_y| < 15 / 100 * ((b1.height + b2.height) / 2) ∧
    |b1.center_x - b2.center_x| - (b1.width + b2.width) / 2 <
      20 / 100 * ((b1.height + b2.height) / 2)

/-- The extents of `c` contain the extents of `b`. -/
def RotatedRect.covers (c b : RotatedRect) : Prop :=
  c.left ≤ b.left ∧ c.right ≥ b.right ∧ c.top ≤ b.top ∧ c.bottom ≥ b.bottom

instance (c b : RotatedRect) : Decidable (c.covers b) := by
  unfold RotatedRect.covers
  infer_instance

instance (b1 b2 : RotatedRect) : Decidable (mergeable b1 b2) := by
  unfold mergeable
  infer_instance

/-- The extents of `b` lie between `-E` and `E`. -/
def RotatedRect.within (b : RotatedRect) (E : ℚ) : Prop :=
  |b.left| ≤ E ∧ |b.right| ≤ E ∧ |b.top| ≤ E ∧ |b.bottom| ≤ E

instance (b : RotatedRect) (E : ℚ) : Decidable (b.within E) := by
  unfold RotatedRect.within
  infer_instance

/-- The extents of `c` contain the extents of `b` up to `t` on every side. -/
def RotatedRect.coversUpTo (c b : RotatedRect) (t : ℚ) : Prop :=
  c.left ≤ b.left + t ∧ c.right ≥ b.right - t ∧ c.top ≤ b.top + t ∧ c.bottom ≥ b.bottom - t

instance (c b : RotatedRect) (t : ℚ) : Decidable (c.coversUpTo b t) := by
  unfold RotatedRect.coversUpTo
  infer_instance

/-- Every field of the box is a `float`: rounding leaves it as it is. -/
def RotatedRect.isFloat (b : RotatedRect) : Prop :=
  f32 b.center_x = b.center_x ∧ f32 b.center_y = b.center_y ∧ f32 b.width = b.width ∧
    f32 b.height = b.height ∧ f32 b.confidence = b.confidence

instance (b : RotatedRect) : Decidable b.isFloat := by
  unfold RotatedRect.isFloat
  infer_instance

/-- The number of times the `while (merged)` loop executes its merge branch
(lines 98-111) when run as `mergeWhile` runs it. -/
def mergeCountWhile : Nat → List RotatedRect → Nat
  | 0, _ => 0
  | fuel + 1, boxes =>
    match mergePass boxes with
    | some boxes' => mergeCountWhile fuel boxes' + 1
    | none => 0

/-- The number of merges `MergeNearbyBoxesPrecision` performs on `boxes`. -/
def mergeCount (boxes : List RotatedRect) : Nat :=
  if boxes.length < 2 then 0 else mergeCountWhile boxes.length boxes

/-- The images on which the detector was invoked, in call order. -/
def detectedImages (calls : List Call) : List Image :=
  calls.filterMap fun c =>
    match c with
    | Call.detect image => some image
    | _ => none

/-- Ties keep their order: whenever the boxes at positions `i < j` have equal
area, index `i` comes before index `j` in the sorted indices. -/
def tiesKeepOrder (sort : (Nat → Nat → Bool) → List Nat → List Nat)
    (boxes : List RotatedRect) : Prop :=
  ∀ i j : Nat, i < j → j < boxes.length →
    (boxes.getD i default).width * (boxes.getD i default).height =
      (boxes.getD j default).width * (boxes.getD j default).height →
    List.Sublist [i, j] (SortBoxesByArea sort boxes)

/-! ## `std::sort` of GNU libstdc++

The functions of `bits/stl_algo.h` and `bits/stl_heap.h` (GCC 12) that make up
`std::sort`, on a vector of indices held as a list. An iterator is a position
in the list; loops carry a bound on their number of iterations as first
argument. -/

/-- `std::iter_swap(i, j)`. -/
def iterSwap (v : List Nat) (i j : Nat) : List Nat :=
  (v.set i (v.getD j 0)).set j (v.getD i 0)

/-- The loop of `__push_heap`, then the final store of `value`. -/
def pushHeap (comp : Nat → Nat → Bool) (first top value : Nat) : Nat → List Nat → Nat → List Nat
  | 0, v, holeIndex => v.set (first + holeIndex) value
  | fuel + 1, v, holeIndex =>
    if holeIndex > top ∧ comp (v.getD (first + (holeIndex - 1) / 2) 0) value = true then
      pushHeap comp first top value fuel
        (v.set (first + holeIndex) (v.getD (first + (holeIndex - 1) / 2) 0)) ((holeIndex - 1) / 2)
    else v.set (first + holeIndex) value

/-- The `while (secondChild < (len - 1) / 2)` loop of `__adjust_heap`: the vector
and the final `holeIndex` (which equals `secondChild`). -/
def adjustHeapLoop (comp : Nat → Nat → Bool) (first len : Nat) :
    Nat → List Nat → Nat → List Nat × Nat
  | 0, v, holeIndex => (v, holeIndex)
  | fuel + 1, v, holeIndex =>
    if holeIndex < (len - 1) / 2 then
      if comp (v.getD (first + 2 * (holeIndex + 1)) 0)
          (v.getD (first + (2 * (holeIndex + 1) - 1)) 0) = true then
        adjustHeapLoop comp first len fuel
          (v.set (first + holeIndex) (v.getD (first + (2 * (holeIndex + 1) - 1)) 0))
          (2 * (holeIndex + 1) - 1)
      else
        adjustHeapLoop comp first len fuel
          (v.set (first + holeIndex) (v.getD (first + 2 * (holeIndex + 1)) 0))
          (2 * (holeIndex + 1))
    else (v, holeIndex)

/-- `__adjust_heap(first, holeIndex, len, value, comp)`. -/
def adjustHeap (comp : Nat → Nat → Bool) (first : Nat) (v : List Nat) (holeIndex len value : Nat) :
    List Nat :=
  if len % 2 = 0 ∧ 2 ≤ len ∧
      (adjustHeapLoop comp first len v.length v holeIndex).2 = (len - 2) / 2 then
    pushHeap comp first holeIndex value v.length
      ((adjustHeapLoop comp first len v.length v holeIndex).1.set
        (first + (adjustHeapLoop comp first len v.length v holeIndex).2)
        ((adjustHeapLoop comp first len v.length v holeIndex).1.getD
          (first + (2 * ((adjustHeapLoop comp first len v.length v holeIndex).2 + 1) - 1)) 0))
      (2 * ((adjustHeapLoop comp first len v.length v holeIndex).2 + 1) - 1)
  else
    pushHeap comp first holeIndex value v.length
      (adjustHeapLoop comp first len v.length v holeIndex).1
      (adjustHeapLoop comp first len v.length v holeIndex).2

/-- `__pop_heap(first, last, result, comp)`. -/
def popHeap (comp : Nat → Nat → Bool) (v : List Nat) (first last result : Nat) : List Nat :=
  adjustHeap comp first (v.set result (v.getD first 0)) 0 (last - first) (v.getD result 0)

/-- The loop of `__make_heap`, from `parent` down to 0. -/
def makeHeapLoop (comp : Nat → Nat → Bool) (first len : Nat) : Nat → List Nat → List Nat
  | 0, v => adjustHeap comp first v 0 len (v.getD first 0)
  | parent + 1, v =>
    makeHeapLoop comp first len parent
      (adjustHeap comp first v (parent + 1) len (v.getD (first + (parent + 1)) 0))

/-- `__make_heap(first, last, comp)`. -/
def makeHeap (comp : Nat → Nat → Bool) (v : List Nat) (first last : Nat) : List Nat :=
  if last - first < 2 then v
  else makeHeapLoop comp first (last - first) ((last - first - 2) / 2) v

/-- `__sort_heap(first, last, comp)`. -/
def sortHeap (comp : Nat → Nat → Bool) (first : Nat) : Nat → List Nat → Nat → List Nat
  | 0, v, _ => v
  | fuel + 1, v, last =>
    if last - first > 1 then
      sortHeap comp first fuel (popHeap comp v first (last - 1) (last - 1)) (last - 1)
    else v

/-- `__partial_sort(first, last, last, comp)`: heap sort of the whole range. -/
def partialSort (comp : Nat → Nat → Bool) (v : List Nat) (first last : Nat) : List Nat :=
  sortHeap comp first v.length (makeHeap comp v first last) last

/-- `__move_median_to_first(result, a, b, c, comp)`. -/
def moveMedianToFirst (comp : Nat → Nat → Bool) (v : List Nat) (result a b c : Nat) : List Nat :=
  if comp (v.getD a 0) (v.getD b 0) = true then
    if comp (v.getD b 0) (v.getD c 0) = true then iterSwap v result b
    else if comp (v.getD a 0) (v.getD c 0) = true then iterSwap v result c
    else iterSwap v result a
  else if comp (v.getD a 0) (v.getD c 0) = true then iterSwap v result a
  else if comp (v.getD b 0) (v.getD c 0) = true then iterSwap v result c
  else iterSwap v result b

/-- `while (comp(first, pivot)) ++first;`. -/
def scanForward (comp : Nat → Nat → Bool) (v : List Nat) (pivot : Nat) : Nat → Nat → Nat
  | 0, first => first
  | fuel + 1, first =>
    if comp (v.getD first 0) (v.getD pivot 0) = true then scanForward comp v pivot fuel (first + 1)
    else first

/-- `while (comp(pivot, last)) --last;`. -/
def scanBackward (comp : Nat → Nat → Bool) (v : List Nat) (pivot : Nat) : Nat → Nat → Nat
  | 0, last => last
  | fuel + 1, last =>
    if comp (v.getD pivot 0) (v.getD last 0) = true then scanBackward comp v pivot fuel (last - 1)
    else last

/-- `__unguarded_partition(first, last, pivot, comp)`: the vector and the cut. -/
def unguardedPartition (comp : Nat → Nat → Bool) (pivot : Nat) :
    Nat → List Nat → Nat → Nat → List Nat × Nat
  | 0, v, first, _ => (v, first)
  | fuel + 1, v, first, last =>
    if scanForward comp v pivot v.length first <
        scanBackward comp v pivot v.length (last - 1) then
      unguardedPartition comp pivot fuel
        (iterSwap v (scanForward comp v pivot v.length first)
          (scanBackward comp v pivot v.length (last - 1)))
        (scanForward comp v pivot v.length first + 1)
        (scanBackward comp v pivot v.length (last - 1))
    else (v, scanForward comp v pivot v.length first)

/-- `__unguarded_partition_pivot(first, last, comp)`. -/
def unguardedPartitionPivot (comp : Nat → Nat → Bool) (v : List Nat) (first last : Nat) :
    List Nat × Nat :=
  unguardedPartition comp first v.length
    (moveMedianToFirst comp v first (first + 1) (first + (last - first) / 2) (last - 1))
    (first + 1) last

/-- `__introsort_loop(first, last, depth_limit, comp)`; every iteration of its
loop lowers `depth_limit` by one. -/
def introsortLoop (comp : Nat → Nat → Bool) : Nat → List Nat → Nat → Nat → List Nat
  | 0, v, first, last => if last - first > 16 then partialSort comp v first last else v
  | depth_limit + 1, v, first, last =>
    if last - first > 16 then
      introsortLoop comp depth_limit
        (introsortLoop comp depth_limit (unguardedPartitionPivot comp v first last).1
          (unguardedPartitionPivot comp v first last).2 last)
        first (unguardedPartitionPivot comp v first last).2
    else v

/-- `__unguarded_linear_insert(last, comp)` for the value `val = *last`. -/
def unguardedLinearInsert (comp : Nat → Nat → Bool) (val : Nat) : Nat → List Nat → Nat → List Nat
  | 0, v, last => v.set last val
  | fuel + 1, v, last =>
    if comp val (v.getD (last - 1) 0) = true then
      unguardedLinearInsert comp val fuel (v.set last (v.getD (last - 1) 0)) (last - 1)
    else v.set last val

/-- The loop of `__insertion_sort(first, last, comp)` from position `i`, with `n`
positions left. -/
def insertionSortLoop (comp : Nat → Nat → Bool) (first : Nat) : Nat → List Nat → Nat → List Nat
  | 0, v, _ => v
  | n + 1, v, i =>
    if comp (v.getD i 0) (v.getD first 0) = true then
      insertionSortLoop comp first n
        (v.take first ++ [v.getD i 0] ++ (v.drop first).take (i - first) ++ v.drop (i + 1)) (i + 1)
    else
      insertionSortLoop comp first n (unguardedLinearInsert comp (v.getD i 0) v.length v i) (i + 1)

/-- `__insertion_sort(first, last, comp)`. -/
def insertionSort (comp : Nat → Nat → Bool) (v : List Nat) (first last : Nat) : List Nat :=
  if first = last then v else insertionSortLoop comp first (last - (first + 1)) v (first + 1)

/-- `__unguarded_insertion_sort(first, last, comp)` from position `i`, with `n`
positions left. -/
def unguardedInsertionSort (comp : Nat → Nat → Bool) : Nat → List Nat → Nat → List Nat
  | 0, v, _ => v
  | n + 1, v, i =>
    unguardedInsertionSort comp n (unguardedLinearInsert comp (v.getD i 0) v.length v i) (i + 1)

/-- `__final_insertion_sort(first, last, comp)`. -/
def finalInsertionSort (comp : Nat → Nat → Bool) (v : List Nat) (first last : Nat) : List Nat :=
  if last - first > 16 then
    unguardedInsertionSort comp (last - (first + 16)) (insertionSort comp v first (first + 16))
      (first + 16)
  else insertionSort comp v first last

/-- `std::sort(first, last, comp)` as GNU libstdc++ implements it: introsort with
depth limit `2 * __lg(last - first)`, then a final insertion sort. -/
def gnuSort (comp : Nat → Nat → Bool) (v : List Nat) : List Nat :=
  if v = [] then v
  else
    finalInsertionSort comp
      (introsortLoop comp (log2Fuel v.length v.length * 2) v 0 v.length) 0 v.length

/-- The comparator "larger key first" on indices into `keys`. -/
def largerKeyFirst (keys : List Nat) (a b : Nat) : Bool :=
  decide (keys.getD a 0 > keys.getD b 0)

/-! ## Concrete collaborators used to instantiate the theorems -/

/-- A detector that reports `boxes` in 5 ms, a recognizer that reads "a" with
confidence 1/2 in every box, constructors that succeed on the CPU only, and
insertion sort for `std::sort`. Neither object has internal state. -/
def sampleEnv (boxes : List RotatedRect) : Env Unit Unit :=
  { detectorCreate := fun _ a => if a = AcceleratorType.kCpu then some () else none
    recognizerCreate := fun _ _ a => if a = AcceleratorType.kCpu then some () else none
    Detect := fun _ _ => ((boxes, 5), ())
    Recognize := fun _ _ _ => ({ text := "a", confidence := 1 / 2, rec_time_ms := 1 }, ())
    std_sort := insertionSortBy
    benchmark_init := { detection_time_ms := 0, recognition_time_ms := 0, total_time_ms := 0, fps := 0 }
    accelerator_init := AcceleratorType.kCpu }

/-- An initialized engine over `sampleEnv`. -/
def sampleEngine : OcrEngine Unit Unit :=
  { detector_ := some (), recognizer_ := some (), active_accelerator_ := AcceleratorType.kCpu
    benchmark_ := { detection_time_ms := 7, recognition_time_ms := 8, total_time_ms := 20, fps := 50 } }

/-- A 2x1 image of 4-byte pixels. -/
def sampleImage : Image := { data := [1, 2, 3, 255, 4, 5, 6, 255], width := 2, height := 1, stride := 8 }

/-- A clock whose `k`-th reading is `1000 * k` microseconds. -/
def sampleClock (k : Nat) : Int := 1000 * k

/-- Three boxes far apart from one another, of areas 1, 200 and 6. -/
def threeBoxes : List RotatedRect :=
  [{ center_x := 0, center_y := 0, width := 1, height := 1, confidence := 7 / 8 },
   { center_x := 50, center_y := 50, width := 10, height := 20, confidence := 3 / 4 },
   { center_x := 200, center_y := 200, width := 3, height := 2, confidence := 5 / 8 }]

/-- An engine whose recognizer is missing. -/
def brokenEngine : OcrEngine Unit Unit :=
  { detector_ := some (), recognizer_ := none, active_accelerator_ := AcceleratorType.kCpu
    benchmark_ := { detection_time_ms := 7, recognition_time_ms := 8, total_time_ms := 20, fps := 50 } }

/-- Two boxes of height 20 whose centres are 1 apart vertically and whose
horizontal gap is 13 - (10 + 10) / 2 = 3. -/
def nearBoxLeft : RotatedRect :=
  { center_x := 0, center_y := 0, width := 10, height := 20, confidence := 1 / 2 }

/-- The right-hand partner of `nearBoxLeft`. -/
def nearBoxRight : RotatedRect :=
  { center_x := 13, center_y := 1, width := 10, height := 20, confidence := 3 / 4 }

/-- Two boxes of height 20 whose centres are 1 apart vertically and whose
horizontal gap is 20 - (10 + 10) / 2 = 10. -/
def farBoxLeft : RotatedRect :=
  { center_x := 0, center_y := 0, width := 10, height := 20, confidence := 1 / 2 }

/-- The right-hand partner of `farBoxLeft`. -/
def farBoxRight : RotatedRect :=
  { center_x := 20, center_y := 1, width := 10, height := 20, confidence := 3 / 4 }

/-- One detected box of area 1, below the area floor. -/
def tinyBoxes : List RotatedRect :=
  [{ center_x := 0, center_y := 0, width := 1, height := 1, confidence := 7 / 8 }]

/-- A clock that always reads 0: no time passes during the call. -/
def frozenClock (_ : Nat) : Int := 0

/-- Two boxes of equal area 100 that are far apart (no merge). -/
def twoEqualBoxes : List RotatedRect :=
  [{ center_x := 0, center_y := 0, width := 10, height := 10, confidence := 7 / 8 },
   { center_x := 100, center_y := 100, width := 10, height := 10, confidence := 3 / 4 }]

/-- One detected box, 1.1f wide and 3.6363635f high: its exact area is
3.99999994..., its `float` product is 4.0f. -/
def edgeBoxes : List RotatedRect :=
  [{ center_x := 50, center_y := 50, width := 9227469 / 8388608, height := 7626007 / 2097152,
     confidence := 1 / 2 }]

/-- A box 30 by 13.333333f followed by a box 20 by 20, far apart: the exact areas
are 399.99999... and 400, both `float` products are 400.0f. -/
def flatBoxes : List RotatedRect :=
  [{ center_x := 0, center_y := 0, width := 30, height := 13981013 / 1048576, confidence := 1 / 2 },
   { center_x := 200, center_y := 200, width := 20, height := 20, confidence := 1 / 2 }]

/-- A box of height 20 centred at (130.5, 254.325f), 12.5 wide. -/
def roundedBoxLeft : RotatedRect :=
  { center_x := 261 / 2, center_y := 16667443 / 65536, width := 25 / 2, height := 20,
    confidence := 1 / 2 }

/-- Its partner, 1 lower and at horizontal gap 3: centred at (144.75, 255.325f),
10 wide. -/
def roundedBoxRight : RotatedRect :=
  { center_x := 579 / 4, center_y := 16732979 / 65536, width := 10, height := 20,
    confidence := 3 / 4 }

/-- A box centred at (567, 224.2f), 109.3f wide and 57.9f high. -/
def closeBoxLeft : RotatedRect :=
  { center_x := 567, center_y := 14693171 / 65536, width := 7163085 / 65536,
    height := 7589069 / 131072, confidence := 1 / 2 }

/-- A box centred at (691.5, 224), 124.6f wide and 17.6f high. -/
def closeBoxRight : RotatedRect :=
  { center_x := 1383 / 2, center_y := 224, width := 16331571 / 131072,
    height := 9227469 / 524288, confidence := 1 / 2 }

/-- A box centred at (169.9f, 301.3f), 78.9f wide and 35.3f high. -/
def shavedBoxLeft : RotatedRect :=
  { center_x := 5567283 / 32768, center_y := 4936499 / 16384, width := 10341581 / 131072,
    height := 9253683 / 262144, confidence := 1 / 2 }

/-- A box centred at (290.71f, 301.7f), 144.7f wide and 54.8f high. -/
def shavedBoxRight : RotatedRect :=
  { center_x := 9525985 / 32768, center_y := 4943053 / 16384, width := 9483059 / 65536,
    height := 14365491 / 262144, confidence := 1 / 2 }

/-- A column of `n` boxes, each 10 by 10, with centres 20 apart vertically. -/
def columnBoxes (n : Nat) : List RotatedRect :=
  (List.range n).map fun (i : Nat) =>
    { center_x := 100, center_y := 20 * (i : ℚ), width := 10, height := 10, confidence := 1 / 2 }

/-- Seventeen boxes of equal area 100, one above the other, 40 apart. -/
def seventeenBoxes : List RotatedRect :=
  (List.range 17).map fun (i : Nat) =>
    { center_x := 100, center_y := 40 * (i : ℚ), width := 10, height := 10, confidence := 1 / 2 }

/-! ## Lemmas on `float` rounding -/

theorem pow2_eq (k : Int) : pow2 k = (2 : ℚ) ^ k := by
  unfold pow2
  split
  · rename_i h
    obtain ⟨n, rfl⟩ := Int.eq_ofNat_of_zero_le h
    simp
  · rename_i h
    have hk : k < 0 := not_le.mp h
    obtain ⟨n, hn⟩ := Int.eq_ofNat_of_zero_le (by omega : 0 ≤ -k)
    have : k = -(n : Int) := by omega
    subst this
    simp [zpow_neg]

theorem pow2_pos (k : Int) : 0 < pow2 k := by
  rw [pow2_eq]
  positivity

theorem log2Fuel_spec :
    ∀ (fuel n : Nat), n ≤ fuel → 0 < n →
      2 ^ log2Fuel fuel n ≤ n ∧ n < 2 ^ (log2Fuel fuel n + 1) := by
  intro fuel
  induction fuel with
  | zero => intro n h1 h2; omega
  | succ f ih =>
    intro n h1 h2
    unfold log2Fuel
    split
    · rename_i h
      simp
      omega
    · rename_i h
      have hn : 2 ≤ n := not_lt.mp h
      obtain ⟨ih1, ih2⟩ := ih (n / 2) (by omega) (by omega)
      constructor
      · rw [pow_succ]
        omega
      · rw [pow_succ]
        omega

theorem floorLog2_le (y : ℚ) (hy : 0 < y) : (2 : ℚ) ^ floorLog2 y ≤ y := by
  unfold floorLog2
  split
  · -- corrected case: use the bounds on numerator and denominator
    have hnum : 0 < y.num := Rat.num_pos.mpr hy
    have hnat : 0 < y.num.natAbs := Int.natAbs_pos.mpr (ne_of_gt hnum)
    have hden : 0 < y.den := y.den_pos
    obtain ⟨hn1, _⟩ := log2Fuel_spec y.num.natAbs y.num.natAbs (le_refl _) hnat
    obtain ⟨_, hd2⟩ := log2Fuel_spec y.den y.den (le_refl _) hden
    set a := log2Fuel y.num.natAbs y.num.natAbs
    set b := log2Fuel y.den y.den
    have hyq : y = (y.num.natAbs : ℚ) / (y.den : ℚ) := by
      have h1 : ((y.num.natAbs : ℕ) : ℤ) = y.num := Int.natAbs_of_nonneg (le_of_lt hnum)
      have h2 : ((y.num.natAbs : ℕ) : ℚ) = (y.num : ℚ) := by
        calc ((y.num.natAbs : ℕ) : ℚ) = (((y.num.natAbs : ℕ) : ℤ) : ℚ) :=
              (Int.cast_natCast _).symm
          _ = (y.num : ℚ) := by rw [h1]
      rw [h2]
      exact (Rat.num_div_den y).symm
    have hn1' : ((2 : ℚ) ^ a) ≤ (y.num.natAbs : ℚ) := by exact_mod_cast hn1
    have hd2' : (y.den : ℚ) ≤ (2 : ℚ) ^ (b + 1) := by exact_mod_cast le_of_lt hd2
    have hdpos : (0 : ℚ) < (y.den : ℚ) := by exact_mod_cast hden
    have hexp : (2 : ℚ) ^ ((a : ℤ) - (b : ℤ) - 1) = (2 : ℚ) ^ a / (2 : ℚ) ^ (b + 1) := by
      rw [show ((a : ℤ) - (b : ℤ) - 1) = (a : ℤ) - ((b + 1 : ℕ) : ℤ) by push_cast; ring]
      rw [zpow_sub₀ (by norm_num : (2 : ℚ) ≠ 0), zpow_natCast, zpow_natCast]
    rw [hexp, hyq]
    apply div_le_div₀
    · exact le_of_lt (by exact_mod_cast hnat)
    · exact hn1'
    · exact hdpos
    · exact hd2'
  · rename_i h
    rw [pow2_eq] at h
    exact not_lt.mp h

theorem roundHalfEven_err (s : ℚ) : |(roundHalfEven s : ℚ) - s| ≤ 1 / 2 := by
  have h1 : (⌊s⌋ : ℚ) ≤ s := Int.floor_le s
  have h2 : s < (⌊s⌋ : ℚ) + 1 := Int.lt_floor_add_one s
  unfold roundHalfEven
  split
  · rename_i h
    rw [abs_le]
    constructor <;> linarith
  · split
    · rename_i h3 h
      push_cast
      rw [abs_le]
      constructor <;> linarith
    · rename_i h3 h4
      have heq : s - (⌊s⌋ : ℚ) = 1 / 2 := le_antisymm (not_lt.mp h4) (not_lt.mp h3)
      split
      · rw [abs_le]
        constructor <;> linarith
      · push_cast
        rw [abs_le]
        constructor <;> linarith

theorem f32Mag_err (y : ℚ) (hy : 0 < y) (K : ℤ) (hK : -126 ≤ K) (hle : y ≤ (2 : ℚ) ^ K) :
    |f32Mag y - y| ≤ (2 : ℚ) ^ (K - 24) := by
  unfold f32Mag
  set e := max (floorLog2 y - 23) (-149) with he
  rw [pow2_eq]
  have hpos : (0 : ℚ) < (2 : ℚ) ^ e := by positivity
  have hfl : floorLog2 y ≤ K := by
    have h1 := le_trans (floorLog2_le y hy) hle
    exact (zpow_le_zpow_iff_right₀ (by norm_num : (1 : ℚ) < 2)).mp h1
  have heK : e ≤ K - 23 := by
    rw [he]
    exact max_le (by omega) (by omega)
  have herr := roundHalfEven_err (y / (2 : ℚ) ^ e)
  have hfact : (roundHalfEven (y / (2 : ℚ) ^ e) : ℚ) * (2 : ℚ) ^ e - y =
      ((roundHalfEven (y / (2 : ℚ) ^ e) : ℚ) - y / (2 : ℚ) ^ e) * (2 : ℚ) ^ e := by
    field_simp
  rw [hfact, abs_mul, abs_of_pos hpos]
  calc |(roundHalfEven (y / (2 : ℚ) ^ e) : ℚ) - y / (2 : ℚ) ^ e| * (2 : ℚ) ^ e
      ≤ 1 / 2 * (2 : ℚ) ^ e := by
        exact mul_le_mul_of_nonneg_right herr (le_of_lt hpos)
    _ = (2 : ℚ) ^ (e - 1) := by
        rw [zpow_sub₀ (by norm_num : (2 : ℚ) ≠ 0)]
        simp
        ring
    _ ≤ (2 : ℚ) ^ (K - 24) := by
        apply zpow_le_zpow_right₀ (by norm_num : (1 : ℚ) ≤ 2)
        omega

/-- Values of the rounding function: 0.1f, 1.1f, the ties 2^24 + 1 and 2^24 + 3
(to the even neighbour), and the subnormal range, where 2^-150 rounds to 0 and
3 * 2^-150 to 2^-148. -/
theorem f32_examples :
    f32 (1 / 10) = 13421773 / 134217728 ∧ f32 (11 / 10) = 9227469 / 8388608 ∧
      f32 16777217 = 16777216 ∧ f32 16777219 = 16777220 ∧
      f32 (1 / 2 ^ 150) = 0 ∧ f32 (3 / 2 ^ 150) = 1 / 2 ^ 148 ∧
      f32 (-(1 / 3)) = -(11184811 / 33554432) := by
  decide!

/-- Rounding to `float` is odd. -/
theorem f32_neg (x : ℚ) : f32 (-x) = -f32 x := by
  unfold f32
  rcases lt_trichotomy x 0 with h | h | h
  · have h1 : ¬ (-x = 0) := by intro h0; linarith [neg_eq_zero.mp h0]
    have h2 : ¬ (-x < 0) := by linarith
    have h3 : ¬ (x = 0) := ne_of_lt h
    simp [h1, h2, h3, h]
  · subst h
    simp
  · have h1 : ¬ (-x = 0) := by intro h0; linarith [neg_eq_zero.mp h0]
    have h2 : -x < 0 := by linarith
    have h3 : ¬ (x = 0) := ne_of_gt h
    have h4 : ¬ (x < 0) := by linarith
    simp [h1, h2, h3, h4]

/-- The rounding error of `float` for a value of magnitude at most `2 ^ K`. -/
theorem f32_err (x : ℚ) (K : ℤ) (hK : -126 ≤ K) (hle : |x| ≤ (2 : ℚ) ^ K) :
    |f32 x - x| ≤ (2 : ℚ) ^ (K - 24) := by
  unfold f32
  rcases lt_trichotomy x 0 with h | h | h
  · have h3 : ¬ (x = 0) := ne_of_lt h
    simp only [h3, h, if_true, if_false]
    have := f32Mag_err (-x) (by linarith) K hK (by rwa [abs_of_neg h] at hle)
    rw [show -f32Mag (-x) - x = -(f32Mag (-x) - -x) by ring, abs_neg]
    exact this
  · subst h
    simp
    positivity
  · have h3 : ¬ (x = 0) := ne_of_gt h
    have h4 : ¬ (x < 0) := by linarith
    simp only [h3, h4, if_false]
    exact f32Mag_err x h K hK (by rwa [abs_of_pos h] at hle)

theorem roundHalfEven_nonneg (s : ℚ) (hs : 0 ≤ s) : 0 ≤ roundHalfEven s := by
  have h := Int.floor_nonneg.mpr hs
  unfold roundHalfEven
  split
  · exact h
  · split
    · omega
    · split
      · exact h
      · omega

theorem f32Mag_nonneg (y : ℚ) (hy : 0 < y) : 0 ≤ f32Mag y := by
  unfold f32Mag
  have hp := pow2_pos (max (floorLog2 y - 23) (-149))
  have hr := roundHalfEven_nonneg (y / pow2 (max (floorLog2 y - 23) (-149)))
    (div_nonneg (le_of_lt hy) (le_of_lt hp))
  exact mul_nonneg (by exact_mod_cast hr) (le_of_lt hp)

/-- Rounding to `float` keeps the sign. -/
theorem f32_nonpos (x : ℚ) (hx : x ≤ 0) : f32 x ≤ 0 := by
  unfold f32
  split
  · exact le_refl _
  · rename_i h0
    have hlt : x < 0 := lt_of_le_of_ne hx h0
    simp only [hlt, if_true]
    linarith [f32Mag_nonneg (-x) (by linarith)]

theorem f32Mag_err_lt (y : ℚ) (hy : 0 < y) (K : ℤ) (hK : -125 ≤ K) (hlt : y < (2 : ℚ) ^ K) :
    |f32Mag y - y| ≤ (2 : ℚ) ^ (K - 25) := by
  unfold f32Mag
  set e := max (floorLog2 y - 23) (-149) with he
  rw [pow2_eq]
  have hpos : (0 : ℚ) < (2 : ℚ) ^ e := by positivity
  have hfl : floorLog2 y < K := by
    have h1 := lt_of_le_of_lt (floorLog2_le y hy) hlt
    exact (zpow_lt_zpow_iff_right₀ (by norm_num : (1 : ℚ) < 2)).mp h1
  have heK : e ≤ K - 24 := by
    rw [he]
    exact max_le (by omega) (by omega)
  have herr := roundHalfEven_err (y / (2 : ℚ) ^ e)
  have hfact : (roundHalfEven (y / (2 : ℚ) ^ e) : ℚ) * (2 : ℚ) ^ e - y =
      ((roundHalfEven (y / (2 : ℚ) ^ e) : ℚ) - y / (2 : ℚ) ^ e) * (2 : ℚ) ^ e := by
    field_simp
  rw [hfact, abs_mul, abs_of_pos hpos]
  calc |(roundHalfEven (y / (2 : ℚ) ^ e) : ℚ) - y / (2 : ℚ) ^ e| * (2 : ℚ) ^ e
      ≤ 1 / 2 * (2 : ℚ) ^ e := by
        exact mul_le_mul_of_nonneg_right herr (le_of_lt hpos)
    _ = (2 : ℚ) ^ (e - 1) := by
        rw [zpow_sub₀ (by norm_num : (2 : ℚ) ≠ 0)]
        simp
        ring
    _ ≤ (2 : ℚ) ^ (K - 25) := by
        apply zpow_le_zpow_right₀ (by norm_num : (1 : ℚ) ≤ 2)
        omega

/-- A `float` product of at least 4.0 comes from an exact product of at least
`4 - 2 ^ (-23)`: the values between the two round up to 4.0. -/
theorem f32_ge_four (x : ℚ) (h : f32 x ≥ 4) : x ≥ 4 - 1 / 8388608 := by
  by_contra hcon
  have hx : x < 4 - 1 / 8388608 := not_le.mp hcon
  rcases le_or_lt x 0 with h0 | h0
  · linarith [f32_nonpos x h0]
  · have hne : ¬ (x = 0) := ne_of_gt h0
    have hnl : ¬ (x < 0) := by linarith
    have herr := f32Mag_err_lt x h0 2 (by norm_num) (by norm_num; linarith)
    unfold f32 at h
    simp only [hne, hnl, if_false] at h
    rw [abs_le] at herr
    norm_num at herr
    linarith [herr.2]

/-- A box of area below `4 - 2 ^ (-23)` fails the area test of the filter loop. -/
theorem fmul_lt_four (w h : ℚ) (hlt : w * h < 4 - 1 / 8388608) : ¬ fmul w h ≥ 4 := by
  intro hge
  have := f32_ge_four (w * h) hge
  linarith

/-! ## Lemmas on sorting -/

theorem strictWeakOrdering_gt (f : Nat → ℚ) :
    StrictWeakOrdering (fun a b => decide (f a > f b)) := by
  refine ⟨?_, ?_, ?_⟩
  · intro a; simp
  · intro a b c hab hbc
    simp only [gt_iff_lt, decide_eq_true_eq] at *
    exact lt_trans hbc hab
  · intro a b c h1 h2 h3 h4
    simp only [gt_iff_lt, decide_eq_false_iff_not, not_lt] at *
    exact ⟨le_trans h1 h3, le_trans h4 h2⟩

theorem StrictWeakOrdering.asymm {comp : Nat → Nat → Bool} (h : StrictWeakOrdering comp)
    (a b : Nat) (hab : comp a b = true) : comp b a = false := by
  cases hba : comp b a with
  | false => rfl
  | true =>
    have := h.2.1 a b a hab hba
    rw [h.1 a] at this
    exact absurd this (by simp)

theorem StrictWeakOrdering.negTrans {comp : Nat → Nat → Bool} (h : StrictWeakOrdering comp)
    (a b c : Nat) (hba : comp b a = false) (hcb : comp c b = false) : comp c a = false := by
  cases hca : comp c a with
  | false => rfl
  | true =>
    exfalso
    cases hab : comp a b with
    | true =>
      have := h.2.1 c a b hca hab
      rw [hcb] at this
      exact absurd this (by simp)
    | false =>
      cases hbc : comp b c with
      | true =>
        have := h.2.1 b c a hbc hca
        rw [hba] at this
        exact absurd this (by simp)
      | false =>
        have := (h.2.2 a b c hab hba hbc hcb).2
        rw [hca] at this
        exact absurd this (by simp)

/-- Insertion sort meets the contract of `std::sort`. -/
theorem insertionSortBy_contract : StdSortContract insertionSortBy := by
  constructor
  · intro comp l _
    exact List.perm_insertionSort _ l
  · intro comp l h
    haveI : IsTotal Nat (fun a b => comp b a = false) :=
      ⟨fun a b => by
        cases hba : comp b a with
        | false => exact Or.inl rfl
        | true => exact Or.inr (h.asymm b a hba)⟩
    haveI : IsTrans Nat (fun a b => comp b a = false) :=
      ⟨fun a b c hab hbc => h.negTrans a b c hab hbc⟩
    exact List.sorted_insertionSort (fun a b => comp b a = false) l

/-- Under the contract, `SortBoxesByArea` returns a permutation of the indices. -/
theorem SortBoxesByArea_perm {sort : (Nat → Nat → Bool) → List Nat → List Nat}
    (hsort : StdSortContract sort) (boxes : List RotatedRect) :
    (SortBoxesByArea sort boxes).Perm (List.range boxes.length) :=
  hsort.perm _ _ (strictWeakOrdering_gt _)

/-- Under the contract, the indices come out in order of non-increasing `float`
product `width * height`. -/
theorem SortBoxesByArea_sorted {sort : (Nat → Nat → Bool) → List Nat → List Nat}
    (hsort : StdSortContract sort) (boxes : List RotatedRect) :
    (SortBoxesByArea sort boxes).Pairwise (fun a b =>
      fmul (boxes.getD a default).width (boxes.getD a default).height ≥
        fmul (boxes.getD b default).width (boxes.getD b default).height) := by
  have h := hsort.sorted _ (List.range boxes.length)
    (strictWeakOrdering_gt
      (fun a => fmul (boxes.getD a default).width (boxes.getD a default).height))
  refine List.Pairwise.imp ?_ h
  intro a b hab
  simpa using hab

/-- Under the contract, the boxes visited by the recognition loop are a
permutation of the boxes that were sorted. -/
theorem SortBoxesByArea_map_perm {sort : (Nat → Nat → Bool) → List Nat → List Nat}
    (hsort : StdSortContract sort) (boxes : List RotatedRect) :
    ((SortBoxesByArea sort boxes).map (fun idx => boxes.getD idx default)).Perm boxes := by
  have h := (SortBoxesByArea_perm hsort boxes).map (fun idx => boxes.getD idx default)
  refine h.trans (List.Perm.of_eq ?_)
  apply List.ext_getElem
  · simp
  · intro n h1 h2
    simp at h1
    simp [List.getD_eq_getElem?_getD, h1]

/-! ## Lemmas on the filter loop -/

theorem filterLoop_eq :
    ∀ (boxes filtered_boxes : List RotatedRect), filtered_boxes.length < kMaxBoxesPerFrame →
      filterLoop boxes filtered_boxes = filtered_boxes ++
        ((boxes.filter (fun b => decide (fmul b.width b.height ≥ kMinBoxArea))).take
          (kMaxBoxesPerFrame - filtered_boxes.length)) := by
  intro boxes
  induction boxes with
  | nil => intro acc _; simp [filterLoop]
  | cons box rest ih =>
    intro acc hacc
    unfold filterLoop
    by_cases hbox : fmul box.width box.height ≥ kMinBoxArea
    · simp only [hbox, if_true, List.filter_cons, decide_True]
      by_cases hfull : (acc ++ [box]).length ≥ kMaxBoxesPerFrame
      · simp only [hfull, if_true]
        have h1 : kMaxBoxesPerFrame - acc.length = 1 := by
          simp only [List.length_append, List.length_singleton] at hfull
          omega
        rw [h1]
        simp
      · simp only [hfull, if_false]
        have hlt : (acc ++ [box]).length < kMaxBoxesPerFrame := by omega
        rw [ih (acc ++ [box]) hlt]
        have h1 : kMaxBoxesPerFrame - acc.length =
            (kMaxBoxesPerFrame - (acc ++ [box]).length) + 1 := by
          simp only [List.length_append, List.length_singleton] at hlt ⊢
          omega
        rw [h1, List.take_succ_cons]
        simp
    · simp only [hbox, if_false, List.filter_cons, decide_False]
      exact ih acc hacc

/-- The filter loop keeps the first `kMaxBoxesPerFrame` boxes whose `float`
product `width * height` is at least `kMinBoxArea`, in encounter order. -/
theorem filterLoop_nil (boxes : List RotatedRect) :
    filterLoop boxes [] =
      (boxes.filter (fun b => decide (fmul b.width b.height ≥ kMinBoxArea))).take
        kMaxBoxesPerFrame := by
  have h := filterLoop_eq boxes [] (by decide)
  simpa using h

/-! ## Lemmas on the box merger -/

theorem mergeInner_length (b1 : RotatedRect) :
    ∀ (rest : List RotatedRect) (m : RotatedRect) (rest' : List RotatedRect),
      mergeInner b1 rest = some (m, rest') → rest'.length + 1 = rest.length := by
  intro rest
  induction rest with
  | nil => intro m rest' h; simp [mergeInner] at h
  | cons b2 tl ih =>
    intro m rest' h
    unfold mergeInner at h
    split at h
    · cases h; simp
    · cases hin : mergeInner b1 tl with
      | none => simp [hin] at h
      | some pr =>
        obtain ⟨m0, r0⟩ := pr
        have hl := ih m0 r0 hin
        simp only [hin] at h
        cases h
        simp [hl]

theorem mergePass_length :
    ∀ (boxes boxes' : List RotatedRect),
      mergePass boxes = some boxes' → boxes'.length + 1 = boxes.length := by
  intro boxes
  induction boxes with
  | nil => intro boxes' h; simp [mergePass] at h
  | cons b1 tl ih =>
    intro boxes' h
    unfold mergePass at h
    cases hin : mergeInner b1 tl with
    | some pr =>
      obtain ⟨m0, r0⟩ := pr
      have hl := mergeInner_length b1 tl m0 r0 hin
      simp only [hin] at h
      cases h
      simp [hl]
    | none =>
      simp only [hin] at h
      cases hp : mergePass tl with
      | none => simp [hp] at h
      | some r0 =>
        have hl := ih r0 hp
        simp only [hp] at h
        cases h
        simp [hl]

/-- With at least `boxes.size()` passes allowed the loop leaves through
`merged == false`: a further pass over the result finds nothing to merge. -/
theorem mergeWhile_fixed :
    ∀ (fuel : Nat) (boxes : List RotatedRect), boxes.length ≤ fuel →
      mergePass (mergeWhile fuel boxes) = none := by
  intro fuel
  induction fuel with
  | zero =>
    intro boxes h
    have : boxes = [] := List.length_eq_zero.mp (Nat.le_zero.mp h)
    subst this
    simp [mergeWhile, mergePass]
  | succ n ih =>
    intro boxes h
    unfold mergeWhile
    cases hp : mergePass boxes with
    | none => simpa using hp
    | some boxes' =>
      have hl := mergePass_length boxes boxes' hp
      simp only
      exact ih boxes' (by omega)

/-- The routine returns a vector on which a full pass produces no merge. -/
theorem mergePass_MergeNearbyBoxesPrecision (boxes : List RotatedRect) :
    mergePass (MergeNearbyBoxesPrecision boxes) = none := by
  unfold MergeNearbyBoxesPrecision
  split
  · rename_i h
    match boxes, h with
    | [], _ => simp [mergePass]
    | [b], _ => simp [mergePass, mergeInner]
    | _ :: _ :: _, h => simp only [List.length_cons] at h; omega
  · exact mergeWhile_fixed _ _ (Nat.le_refl _)

/-- A vector on which a pass produces no merge is returned unchanged. -/
theorem MergeNearbyBoxesPrecision_of_mergePass_none (boxes : List RotatedRect)
    (h : mergePass boxes = none) : MergeNearbyBoxesPrecision boxes = boxes := by
  unfold MergeNearbyBoxesPrecision
  split
  · rfl
  · rename_i hl
    cases hlen : boxes.length with
    | zero => simp [hlen] at hl
    | succ n => simp [mergeWhile, h]

/-! ## Lemmas on the recognition loop and on `Process` -/

theorem recognizeLoop_calls {δ ρ : Type} (env : Env δ ρ) (image : Image)
    (filtered_boxes : List RotatedRect) :
    ∀ (sorted_indices : List Nat) (recognizer : ρ),
      (recognizeLoop env image filtered_boxes sorted_indices recognizer).calls =
        sorted_indices.map (fun idx => Call.recognize image (filtered_boxes.getD idx default)) := by
  intro sorted_indices
  induction sorted_indices with
  | nil => intro r; simp [recognizeLoop]
  | cons idx rest ih =>
    intro r
    unfold recognizeLoop
    simp only
    split <;> simp [ih]

theorem recognizeLoop_results {δ ρ : Type} (env : Env δ ρ) (image : Image)
    (filtered_boxes : List RotatedRect) :
    ∀ (sorted_indices : List Nat) (recognizer : ρ),
      (recognizeLoop env image filtered_boxes sorted_indices recognizer).results =
        (recognizerAnswers env image
          (sorted_indices.map (fun idx => filtered_boxes.getD idx default)) recognizer).filterMap
          acceptAnswer := by
  intro sorted_indices
  induction sorted_indices with
  | nil => intro r; simp [recognizeLoop, recognizerAnswers]
  | cons idx rest ih =>
    intro r
    unfold recognizeLoop
    simp only [List.map_cons, recognizerAnswers]
    generalize filtered_boxes.getD idx default = b
    split
    · rename_i h
      have hacc : acceptAnswer (b, (env.Recognize r image b).1) =
          some { text := (env.Recognize r image b).1.text,
                 confidence := (env.Recognize r image b).1.confidence, box := b } := if_pos h
      rw [List.filterMap_cons, hacc]
      simp only [ih]
    · rename_i h
      have hacc : acceptAnswer (b, (env.Recognize r image b).1) = none := if_neg h
      rw [List.filterMap_cons, hacc]
      simp only [ih]

theorem recognizerAnswers_map_fst {δ ρ : Type} (env : Env δ ρ) (image : Image) :
    ∀ (boxes : List RotatedRect) (recognizer : ρ),
      (recognizerAnswers env image boxes recognizer).map Prod.fst = boxes := by
  intro boxes
  induction boxes with
  | nil => intro r; simp [recognizerAnswers]
  | cons b rest ih => intro r; simp [recognizerAnswers, ih]

theorem acceptAnswer_box {a : RotatedRect × RecognitionResult} {r : OcrResult}
    (h : acceptAnswer a = some r) :
    r.box = a.1 ∧ r.text = a.2.text ∧ r.confidence = a.2.confidence ∧
      a.2.text ≠ "" ∧ a.2.confidence ≥ 0 := by
  unfold acceptAnswer at h
  split at h
  · rename_i hc
    cases h
    exact ⟨rfl, rfl, rfl, hc.1, hc.2⟩
  · cases h

/-- The source boxes of the accepted answers form a sub-sequence of the boxes asked. -/
theorem filterMap_acceptAnswer_sublist :
    ∀ (answers : List (RotatedRect × RecognitionResult)),
      ((answers.filterMap acceptAnswer).map (fun r => r.box)).Sublist (answers.map Prod.fst) := by
  intro answers
  induction answers with
  | nil => simp
  | cons a rest ih =>
    rw [List.filterMap_cons]
    cases h : acceptAnswer a with
    | none => simpa using ih.trans (List.sublist_cons_self _ _)
    | some r =>
      simp only [List.map_cons]
      rw [(acceptAnswer_box h).1]
      exact ih.cons₂ _

/-- On an initialized engine whose `std::sort` meets its contract, all three
return paths of `Process` agree with the recognition loop run over the retained
boxes (which is empty on the two early paths). -/
theorem Process_initialized {δ ρ : Type} (env : Env δ ρ) (clock : Nat → Int)
    (engine : OcrEngine δ ρ) (image : Image) (detector : δ) (recognizer : ρ)
    (hd : engine.detector_ = some detector) (hr : engine.recognizer_ = some recognizer)
    (hsort : StdSortContract env.std_sort) :
    (Process env clock engine image).results =
        (recognizeLoop env image (retainedBoxes (env.Detect detector image).1.1)
          (SortBoxesByArea env.std_sort (retainedBoxes (env.Detect detector image).1.1))
          recognizer).results ∧
      (Process env clock engine image).calls = Call.detect image ::
        (recognizeLoop env image (retainedBoxes (env.Detect detector image).1.1)
          (SortBoxesByArea env.std_sort (retainedBoxes (env.Detect detector image).1.1))
          recognizer).calls := by
  have hnil : SortBoxesByArea env.std_sort [] = [] := by
    have := SortBoxesByArea_perm hsort []
    simpa using this
  unfold Process retainedBoxes
  simp only [hd, hr]
  split
  · rename_i hb
    rw [hb]
    simp [MergeNearbyBoxesPrecision, filterLoop, hnil, recognizeLoop]
  · split
    · rename_i hf
      rw [hf]
      simp [hnil, recognizeLoop]
    · simp

theorem Process_uninitialized {δ ρ : Type} (env : Env δ ρ) (clock : Nat → Int)
    (engine : OcrEngine δ ρ) (image : Image)
    (h : engine.detector_ = none ∨ engine.recognizer_ = none) :
    Process env clock engine image = { results := [], engine := engine, calls := [] } := by
  unfold Process
  rcases h with h | h
  · simp [h]
  · cases hd : engine.detector_ <;> simp [h]

theorem recognizedBoxes_map (image : Image) (boxes : List RotatedRect) :
    recognizedBoxes (boxes.map (fun b => Call.recognize image b)) = boxes := by
  induction boxes with
  | nil => simp [recognizedBoxes]
  | cons b rest ih =>
    simp only [recognizedBoxes, List.map_cons, List.filterMap_cons] at ih ⊢
    rw [ih]

/-- On an initialized engine the results are the accepted answers of the
recognizer over the retained boxes in sorted order, and the recognizer is
invoked on exactly those boxes. -/
theorem Process_results_answers {δ ρ : Type} (env : Env δ ρ) (clock : Nat → Int)
    (engine : OcrEngine δ ρ) (image : Image) (detector : δ) (recognizer : ρ)
    (hd : engine.detector_ = some detector) (hr : engine.recognizer_ = some recognizer)
    (hsort : StdSortContract env.std_sort) :
    (Process env clock engine image).results =
        (recognizerAnswers env image
          (sortedBoxes env.std_sort (retainedBoxes (env.Detect detector image).1.1))
          recognizer).filterMap acceptAnswer ∧
      recognizedBoxes (Process env clock engine image).calls =
        sortedBoxes env.std_sort (retainedBoxes (env.Detect detector image).1.1) := by
  obtain ⟨h1, h2⟩ := Process_initialized env clock engine image detector recognizer hd hr hsort
  constructor
  · rw [h1, recognizeLoop_results]
    rfl
  · rw [h2, recognizeLoop_calls]
    have := recognizedBoxes_map image
      (sortedBoxes env.std_sort (retainedBoxes (env.Detect detector image).1.1))
    simp only [sortedBoxes, List.map_map] at this ⊢
    simpa [recognizedBoxes] using this

/-- The source boxes of the results form a sub-sequence of the retained boxes in
sorted order. -/
theorem Process_boxes_sublist {δ ρ : Type} (env : Env δ ρ) (clock : Nat → Int)
    (engine : OcrEngine δ ρ) (image : Image) (detector : δ) (recognizer : ρ)
    (hd : engine.detector_ = some detector) (hr : engine.recognizer_ = some recognizer)
    (hsort : StdSortContract env.std_sort) :
    ((Process env clock engine image).results.map (fun r => r.box)).Sublist
      (sortedBoxes env.std_sort (retainedBoxes (env.Detect detector image).1.1)) := by
  rw [(Process_results_answers env clock engine image detector recognizer hd hr hsort).1]
  have h := filterMap_acceptAnswer_sublist (recognizerAnswers env image
    (sortedBoxes env.std_sort (retainedBoxes (env.Detect detector image).1.1)) recognizer)
  rwa [recognizerAnswers_map_fst] at h

theorem sortedBoxes_perm {sort : (Nat → Nat → Bool) → List Nat → List Nat}
    (hsort : StdSortContract sort) (boxes : List RotatedRect) :
    (sortedBoxes sort boxes).Perm boxes :=
  SortBoxesByArea_map_perm hsort boxes

theorem sortedBoxes_pairwise {sort : (Nat → Nat → Bool) → List Nat → List Nat}
    (hsort : StdSortContract sort) (boxes : List RotatedRect) :
    (sortedBoxes sort boxes).Pairwise
      (fun a b => fmul a.width a.height ≥ fmul b.width b.height) := by
  unfold sortedBoxes
  rw [List.pairwise_map]
  exact SortBoxesByArea_sorted hsort boxes

theorem take_min_length {α : Type} (l : List α) (n : Nat) :
    l.take n = l.take (min l.length n) := by
  rcases Nat.le_total n l.length with h | h
  · rw [Nat.min_eq_right h]
  · rw [Nat.min_eq_left h, List.take_of_length_le h, List.take_of_length_le (Nat.le_refl _)]

theorem retainedBoxes_eq (detected : List RotatedRect) :
    retainedBoxes detected =
      ((MergeNearbyBoxesPrecision detected).filter
        (fun b => decide (fmul b.width b.height ≥ 4))).take 200 :=
  filterLoop_nil _

/-! ## Structure of one merge -/

theorem mergeInner_some (b1 : RotatedRect) :
    ∀ (rest : List RotatedRect) (m : RotatedRect) (rest' : List RotatedRect),
      mergeInner b1 rest = some (m, rest') →
        ∃ mid b2 post, rest = mid ++ b2 :: post ∧ rest' = mid ++ post ∧
          m = mergedBox b1 b2 ∧ mergeCondition b1 b2 = true := by
  intro rest
  induction rest with
  | nil => intro m rest' h; simp [mergeInner] at h
  | cons b tl ih =>
    intro m rest' h
    unfold mergeInner at h
    split at h
    · rename_i hc
      cases h
      exact ⟨[], b, tl, rfl, rfl, rfl, hc⟩
    · cases hin : mergeInner b1 tl with
      | none => simp [hin] at h
      | some pr =>
        obtain ⟨m0, r0⟩ := pr
        obtain ⟨mid, b2, post, h1, h2, h3, h4⟩ := ih m0 r0 hin
        simp only [hin] at h
        cases h
        exact ⟨b :: mid, b2, post, by simp [h1], by simp [h2], h3, h4⟩

theorem mergeInner_none (b1 : RotatedRect) :
    ∀ (rest : List RotatedRect), mergeInner b1 rest = none →
      ∀ b2 ∈ rest, mergeCondition b1 b2 = false := by
  intro rest
  induction rest with
  | nil => intro _ b2 hb; simp at hb
  | cons b tl ih =>
    intro h b2 hb
    unfold mergeInner at h
    split at h
    · cases h
    · rename_i hc
      cases hin : mergeInner b1 tl with
      | some pr => simp [hin] at h
      | none =>
        rcases List.mem_cons.mp hb with hb | hb
        · subst hb; simpa using hc
        · exact ih hin b2 hb

/-- A pass that merges replaces one box by the merged box and erases a later one. -/
theorem mergePass_some :
    ∀ (boxes boxes' : List RotatedRect), mergePass boxes = some boxes' →
      ∃ pre b1 mid b2 post, boxes = pre ++ b1 :: (mid ++ b2 :: post) ∧
        boxes' = pre ++ mergedBox b1 b2 :: (mid ++ post) ∧ mergeCondition b1 b2 = true := by
  intro boxes
  induction boxes with
  | nil => intro boxes' h; simp [mergePass] at h
  | cons b tl ih =>
    intro boxes' h
    unfold mergePass at h
    cases hin : mergeInner b tl with
    | some pr =>
      obtain ⟨m0, r0⟩ := pr
      obtain ⟨mid, b2, post, h1, h2, h3, h4⟩ := mergeInner_some b tl m0 r0 hin
      simp only [hin] at h
      cases h
      exact ⟨[], b, mid, b2, post, by simp [h1], by simp [h2, h3], h4⟩
    | none =>
      simp only [hin] at h
      cases hp : mergePass tl with
      | none => simp [hp] at h
      | some r0 =>
        obtain ⟨pre, b1, mid, b2, post, h1, h2, h3⟩ := ih r0 hp
        simp only [hp] at h
        cases h
        exact ⟨b :: pre, b1, mid, b2, post, by simp [h1], by simp [h2], h3⟩

/-- After a pass without a merge no pair `i < j` passes the merge test. -/
theorem mergePass_none :
    ∀ (boxes : List RotatedRect), mergePass boxes = none →
      boxes.Pairwise (fun b1 b2 => mergeCondition b1 b2 = false) := by
  intro boxes
  induction boxes with
  | nil => intro _; exact List.Pairwise.nil
  | cons b tl ih =>
    intro h
    unfold mergePass at h
    cases hin : mergeInner b tl with
    | some pr => simp [hin] at h
    | none =>
      simp only [hin] at h
      cases hp : mergePass tl with
      | some r0 => simp [hp] at h
      | none => exact List.Pairwise.cons (mergeInner_none b tl hin) (ih hp)

/-- The merge test does not depend on the order of the two boxes. -/
theorem mergeCondition_symm (b1 b2 : RotatedRect) :
    mergeCondition b1 b2 = mergeCondition b2 b1 := by
  have hsub : ∀ a b : ℚ, |fsub a b| = |fsub b a| := by
    intro a b
    unfold fsub
    rw [show a - b = -(b - a) by ring, f32_neg, abs_neg]
  unfold mergeCondition
  simp only [hsub b1.center_y b2.center_y, hsub b1.center_x b2.center_x]
  simp only [fadd, add_comm b1.height b2.height, add_comm b1.width b2.width]

theorem mergeInner_eq_none (b1 : RotatedRect) :
    ∀ (rest : List RotatedRect), (∀ b2 ∈ rest, mergeCondition b1 b2 = false) →
      mergeInner b1 rest = none := by
  intro rest
  induction rest with
  | nil => intro _; rfl
  | cons b tl ih =>
    intro h
    unfold mergeInner
    rw [h b (List.mem_cons_self _ _), ih (fun b2 hb => h b2 (List.mem_cons_of_mem _ hb))]
    simp

/-- A vector in which no pair `i < j` passes the merge test is left alone by a pass. -/
theorem mergePass_eq_none :
    ∀ (boxes : List RotatedRect),
      boxes.Pairwise (fun b1 b2 => mergeCondition b1 b2 = false) → mergePass boxes = none := by
  intro boxes
  induction boxes with
  | nil => intro _; rfl
  | cons b tl ih =>
    intro h
    rw [List.pairwise_cons] at h
    unfold mergePass
    rw [mergeInner_eq_none b tl h.1, ih h.2]

/-- A property of input and output that holds across every merging pass, of a
list with itself, and transitively, holds of the whole loop. -/
theorem mergeWhile_induction (P : List RotatedRect → List RotatedRect → Prop)
    (hrefl : ∀ l, P l l) (htrans : ∀ a b c, P a b → P b c → P a c)
    (hstep : ∀ boxes boxes', mergePass boxes = some boxes' → P boxes boxes') :
    ∀ (fuel : Nat) (boxes : List RotatedRect), P boxes (mergeWhile fuel boxes) := by
  intro fuel
  induction fuel with
  | zero => intro boxes; exact hrefl boxes
  | succ n ih =>
    intro boxes
    unfold mergeWhile
    cases hp : mergePass boxes with
    | none => exact hrefl boxes
    | some boxes' => exact htrans _ _ _ (hstep boxes boxes' hp) (ih boxes')

theorem MergeNearbyBoxesPrecision_induction (P : List RotatedRect → List RotatedRect → Prop)
    (hrefl : ∀ l, P l l) (htrans : ∀ a b c, P a b → P b c → P a c)
    (hstep : ∀ boxes boxes', mergePass boxes = some boxes' → P boxes boxes')
    (boxes : List RotatedRect) : P boxes (MergeNearbyBoxesPrecision boxes) := by
  unfold MergeNearbyBoxesPrecision
  split
  · exact hrefl boxes
  · exact mergeWhile_induction P hrefl htrans hstep _ boxes

/-! ## Further properties of the box merger -/

theorem mergeWhile_nil (fuel : Nat) : mergeWhile fuel [] = [] := by
  cases fuel <;> simp [mergeWhile, mergePass]

/-- The result of the loop does not depend on how many passes are allowed, as
long as `boxes.size()` passes are: the loop ends by itself. -/
theorem mergeWhile_fuel :
    ∀ (fuel₁ fuel₂ : Nat) (boxes : List RotatedRect), boxes.length ≤ fuel₁ →
      boxes.length ≤ fuel₂ → mergeWhile fuel₁ boxes = mergeWhile fuel₂ boxes := by
  intro fuel₁
  induction fuel₁ with
  | zero =>
    intro fuel₂ boxes h1 _
    have : boxes = [] := List.length_eq_zero.mp (Nat.le_zero.mp h1)
    subst this
    simp [mergeWhile_nil]
  | succ n ih =>
    intro fuel₂ boxes h1 h2
    cases fuel₂ with
    | zero =>
      have : boxes = [] := List.length_eq_zero.mp (Nat.le_zero.mp h2)
      subst this
      simp [mergeWhile_nil]
    | succ m =>
      unfold mergeWhile
      cases hp : mergePass boxes with
      | none => rfl
      | some boxes' =>
        have hl := mergePass_length boxes boxes' hp
        exact ih m boxes' (by omega) (by omega)

theorem mergePass_ne_nil (boxes boxes' : List RotatedRect)
    (h : mergePass boxes = some boxes') : boxes' ≠ [] := by
  obtain ⟨pre, b1, mid, b2, post, _, h2, _⟩ := mergePass_some boxes boxes' h
  rw [h2]
  simp

/-- Every merge shortens the vector by one box and nothing else changes its length. -/
theorem mergeWhile_length :
    ∀ (fuel : Nat) (boxes : List RotatedRect),
      (mergeWhile fuel boxes).length + mergeCountWhile fuel boxes = boxes.length := by
  intro fuel
  induction fuel with
  | zero => intro boxes; simp [mergeWhile, mergeCountWhile]
  | succ n ih =>
    intro boxes
    unfold mergeWhile mergeCountWhile
    cases hp : mergePass boxes with
    | none => simp
    | some boxes' =>
      have hl := mergePass_length boxes boxes' hp
      have := ih boxes'
      simp only
      omega

theorem mergeCountWhile_le :
    ∀ (fuel : Nat) (boxes : List RotatedRect),
      mergeCountWhile fuel boxes ≤ boxes.length - 1 := by
  intro fuel
  induction fuel with
  | zero => intro boxes; simp [mergeCountWhile]
  | succ n ih =>
    intro boxes
    unfold mergeCountWhile
    cases hp : mergePass boxes with
    | none => simp
    | some boxes' =>
      have hl := mergePass_length boxes boxes' hp
      have hne := List.length_pos.mpr (mergePass_ne_nil boxes boxes' hp)
      have := ih boxes'
      simp only
      omega

theorem mergePass_confidence (boxes boxes' : List RotatedRect)
    (h : mergePass boxes = some boxes') :
    (∀ c ∈ boxes', ∃ b ∈ boxes, c.confidence = b.confidence) ∧
      ∀ b ∈ boxes, ∃ c ∈ boxes', b.confidence ≤ c.confidence := by
  obtain ⟨pre, b1, mid, b2, post, h1, h2, _⟩ := mergePass_some boxes boxes' h
  have hm : (mergedBox b1 b2).confidence = max b1.confidence b2.confidence := rfl
  rw [h1, h2]
  constructor
  · intro c hc
    simp only [List.mem_append, List.mem_cons] at hc ⊢
    rcases hc with hc | hc | hc | hc
    · exact ⟨c, Or.inl hc, rfl⟩
    · rcases le_total b1.confidence b2.confidence with hle | hle
      · exact ⟨b2, Or.inr (Or.inr (Or.inr (Or.inl rfl))), by rw [hc, hm, max_eq_right hle]⟩
      · exact ⟨b1, Or.inr (Or.inl rfl), by rw [hc, hm, max_eq_left hle]⟩
    · exact ⟨c, Or.inr (Or.inr (Or.inl hc)), rfl⟩
    · exact ⟨c, Or.inr (Or.inr (Or.inr (Or.inr hc))), rfl⟩
  · intro b hb
    simp only [List.mem_append, List.mem_cons] at hb ⊢
    rcases hb with hb | hb | hb | hb | hb
    · exact ⟨b, Or.inl hb, le_refl _⟩
    · exact ⟨mergedBox b1 b2, Or.inr (Or.inl rfl), by rw [hb, hm]; exact le_max_left _ _⟩
    · exact ⟨b, Or.inr (Or.inr (Or.inl hb)), le_refl _⟩
    · exact ⟨mergedBox b1 b2, Or.inr (Or.inl rfl), by rw [hb, hm]; exact le_max_right _ _⟩
    · exact ⟨b, Or.inr (Or.inr (Or.inr hb)), le_refl _⟩

/-! ## A column of boxes that reaches the cap -/

/-- In a column of at most 204 boxes no pair passes the vertical test: the centres
are at least 20 apart and the threshold is 1.5. -/
theorem columnBoxes_pairwise (n : Nat) (hn : n ≤ 204) :
    (columnBoxes n).Pairwise (fun b1 b2 => mergeCondition b1 b2 = false) := by
  unfold columnBoxes
  rw [List.pairwise_map]
  refine List.Pairwise.imp_of_mem ?_ (List.pairwise_lt_range n)
  intro i j hi hj hij
  have hi' : i < n := List.mem_range.mp hi
  have hj' : j < n := List.mem_range.mp hj
  have hT : fmul (fdiv (fadd 10 10) 2) (f32 (15 / 100)) = 3 / 2 := by decide!
  have hiq : (i : ℚ) + 1 ≤ (j : ℚ) := by exact_mod_cast hij
  have hjq : (j : ℚ) ≤ 204 := by exact_mod_cast (le_trans (le_of_lt hj') hn)
  have hi0 : (0 : ℚ) ≤ (i : ℚ) := Nat.cast_nonneg i
  have hz : |20 * (i : ℚ) - 20 * (j : ℚ)| ≤ (2 : ℚ) ^ (12 : ℤ) := by
    rw [abs_le]
    constructor <;> norm_num <;> linarith
  have herr := f32_err (20 * (i : ℚ) - 20 * (j : ℚ)) 12 (by norm_num) hz
  have herr' : |f32 (20 * (i : ℚ) - 20 * (j : ℚ)) - (20 * (i : ℚ) - 20 * (j : ℚ))| ≤ 1 := by
    refine le_trans herr ?_
    norm_num
  have hdy : ¬ |fsub (20 * (i : ℚ)) (20 * (j : ℚ))| < 3 / 2 := by
    unfold fsub
    rw [not_lt]
    rw [abs_le] at herr'
    have : f32 (20 * (i : ℚ) - 20 * (j : ℚ)) ≤ -19 := by linarith [herr'.2]
    rw [abs_of_nonpos (by linarith)]
    linarith
  simp only [mergeCondition, hT, hdy, if_false]

theorem MergeNearbyBoxesPrecision_columnBoxes (n : Nat) (hn : n ≤ 204) :
    MergeNearbyBoxesPrecision (columnBoxes n) = columnBoxes n :=
  MergeNearbyBoxesPrecision_of_mergePass_none _
    (mergePass_eq_none _ (columnBoxes_pairwise n hn))

/-- All boxes of a column pass the area filter, so for `columnBoxes 201` the merged
and filtered boxes are the 201 boxes themselves. -/
theorem columnBoxes_filter :
    (MergeNearbyBoxesPrecision (columnBoxes 201)).filter
      (fun b => decide (fmul b.width b.height ≥ 4)) = columnBoxes 201 := by
  rw [MergeNearbyBoxesPrecision_columnBoxes 201 (by norm_num)]
  have hall : ∀ b ∈ columnBoxes 201, decide (fmul b.width b.height ≥ 4) = true := by
    intro b hb
    unfold columnBoxes at hb
    obtain ⟨i, _, rfl⟩ := List.mem_map.mp hb
    have h100 : fmul 10 10 = 100 := by decide!
    simp only [h100]
    norm_num
  exact List.filter_eq_self.mpr hall

theorem columnBoxes_length (n : Nat) : (columnBoxes n).length = n := by
  unfold columnBoxes
  rw [List.length_map, List.length_range]

/-! ## Properties of `Process` -/

/-- C2, as stated, fails: the detector reports one box 1.1f wide and 3.6363635f
high. Its `float` product is 4.0f, so it is kept and returned, while its area
`width * height` is 3.99999994..., below 4.0. -/
theorem Process_area_floor_exact_fails :
    (∀ b ∈ edgeBoxes, b.isFloat) ∧
      ¬ ∀ r ∈ (Process (sampleEnv edgeBoxes) sampleClock sampleEngine sampleImage).results,
        r.box.width * r.box.height ≥ 4 := by
  decide!

/-- C2, amended: with a `std::sort` that meets its contract, every result returned
by `Process` has a source box whose `float` product `width * height`, the
quantity the filter tests, is at least 4.0, and whose area `width * height` is
therefore at least `4 - 2 ^ (-23)` (no returned box has area below
3.99999988). -/
theorem Process_area_floor {δ ρ : Type} (env : Env δ ρ) (clock : Nat → Int)
    (engine : OcrEngine δ ρ) (image : Image) (hsort : StdSortContract env.std_sort) :
    ∀ r ∈ (Process env clock engine image).results,
      fmul r.box.width r.box.height ≥ 4 ∧ r.box.width * r.box.height ≥ 4 - 1 / 8388608 := by
  intro r hr
  suffices h : fmul r.box.width r.box.height ≥ 4 from ⟨h, f32_ge_four _ h⟩
  cases hd : engine.detector_ with
  | none => rw [Process_uninitialized env clock engine image (Or.inl hd)] at hr; simp at hr
  | some detector =>
    cases hrec : engine.recognizer_ with
    | none => rw [Process_uninitialized env clock engine image (Or.inr hrec)] at hr; simp at hr
    | some recognizer =>
      have hsub := Process_boxes_sublist env clock engine image detector recognizer hd hrec hsort
      have h1 : r.box ∈ (Process env clock engine image).results.map (fun r => r.box) :=
        List.mem_map_of_mem _ hr
      have h2 := (sortedBoxes_perm hsort _).subset (hsub.subset h1)
      rw [retainedBoxes_eq] at h2
      have h3 := List.mem_of_mem_take h2
      simpa using (List.mem_filter.mp h3).2

/-- Instance of `Process_area_floor`: of three detected boxes the one of area 1 is
dropped and two results are returned. -/
theorem Process_area_floor_witness :
    (Process (sampleEnv threeBoxes) sampleClock sampleEngine sampleImage).results.length = 2 ∧
      ∀ r ∈ (Process (sampleEnv threeBoxes) sampleClock sampleEngine sampleImage).results,
        fmul r.box.width r.box.height ≥ 4 ∧ r.box.width * r.box.height ≥ 4 - 1 / 8388608 :=
  ⟨by decide!, Process_area_floor (sampleEnv threeBoxes) sampleClock sampleEngine sampleImage
    insertionSortBy_contract⟩

/-- C3, as stated, fails: for the one detected box 1.1f by 3.6363635f the
sub-sequence `F` of merged boxes of area `width * height >= 4.0` is empty, yet
the recognizer is invoked on the box. -/
theorem Process_cap_exact_fails :
    (∀ b ∈ edgeBoxes, b.isFloat) ∧
      (MergeNearbyBoxesPrecision edgeBoxes).filter
        (fun b => decide (b.width * b.height ≥ 4)) = [] ∧
      recognizedBoxes (Process (sampleEnv edgeBoxes) sampleClock sampleEngine
        sampleImage).calls = edgeBoxes ∧
      ¬ (recognizedBoxes (Process (sampleEnv edgeBoxes) sampleClock sampleEngine
          sampleImage).calls).Perm
        (((MergeNearbyBoxesPrecision edgeBoxes).filter
          (fun b => decide (b.width * b.height ≥ 4))).take 200) := by
  have h1 : (MergeNearbyBoxesPrecision edgeBoxes).filter
      (fun b => decide (b.width * b.height ≥ 4)) = [] := by decide!
  have h2 : recognizedBoxes (Process (sampleEnv edgeBoxes) sampleClock sampleEngine
      sampleImage).calls = edgeBoxes := by decide!
  refine ⟨by decide!, h1, h2, ?_⟩
  rw [h1, h2]
  intro hp
  have := hp.length_eq
  simp [edgeBoxes] at this

/-- C3, amended: on an initialized engine, with `M` the merger's output on the
detector's boxes and `F` the boxes of `M` whose `float` product `width * height`
is at least 4.0, in `M`'s order, the boxes retained are the first `min |F| 200`
boxes of `F`; the recognizer is invoked on exactly these boxes (in sorted
order, once each); when `|F| > 200` exactly 200 boxes are retained; and neither
the number of recognised boxes nor the number of results exceeds 200. -/
theorem Process_cap {δ ρ : Type} (env : Env δ ρ) (clock : Nat → Int)
    (engine : OcrEngine δ ρ) (image : Image) (detector : δ) (recognizer : ρ)
    (hd : engine.detector_ = some detector) (hr : engine.recognizer_ = some recognizer)
    (hsort : StdSortContract env.std_sort) :
    retainedBoxes (env.Detect detector image).1.1 =
        ((MergeNearbyBoxesPrecision (env.Detect detector image).1.1).filter
          (fun b => decide (fmul b.width b.height ≥ 4))).take
          (min ((MergeNearbyBoxesPrecision (env.Detect detector image).1.1).filter
            (fun b => decide (fmul b.width b.height ≥ 4))).length 200) ∧
      (recognizedBoxes (Process env clock engine image).calls).Perm
        (retainedBoxes (env.Detect detector image).1.1) ∧
      (200 < ((MergeNearbyBoxesPrecision (env.Detect detector image).1.1).filter
          (fun b => decide (fmul b.width b.height ≥ 4))).length →
        (retainedBoxes (env.Detect detector image).1.1).length = 200 ∧
          (recognizedBoxes (Process env clock engine image).calls).length = 200) ∧
      (recognizedBoxes (Process env clock engine image).calls).length ≤ 200 ∧
      (Process env clock engine image).results.length ≤ 200 := by
  have hcalls := (Process_results_answers env clock engine image detector recognizer hd hr hsort).2
  have hperm := sortedBoxes_perm hsort (retainedBoxes (env.Detect detector image).1.1)
  have hsub := Process_boxes_sublist env clock engine image detector recognizer hd hr hsort
  have hlen : (retainedBoxes (env.Detect detector image).1.1).length =
      min 200 ((MergeNearbyBoxesPrecision (env.Detect detector image).1.1).filter
        (fun b => decide (fmul b.width b.height ≥ 4))).length := by
    rw [retainedBoxes_eq, List.length_take]
  have hrl : (recognizedBoxes (Process env clock engine image).calls).length =
      (retainedBoxes (env.Detect detector image).1.1).length := by
    rw [hcalls]; exact hperm.length_eq
  have hres : (Process env clock engine image).results.length ≤
      (retainedBoxes (env.Detect detector image).1.1).length := by
    have := hsub.length_le
    rw [List.length_map, hperm.length_eq] at this
    exact this
  refine ⟨?_, ?_, ?_, ?_, ?_⟩
  · rw [retainedBoxes_eq]
    exact take_min_length _ _
  · rw [hcalls]; exact hperm
  · intro hbig
    constructor <;> omega
  · omega
  · omega

/-- Instance of `Process_cap` that reaches the cap: the detector reports a column
of 201 boxes, none of which merge and all of which pass the filter; the first
200 of them are retained and the recognizer is invoked 200 times. -/
theorem Process_cap_witness :
    (columnBoxes 201).length = 201 ∧
      retainedBoxes (columnBoxes 201) = (columnBoxes 201).take 200 ∧
      (retainedBoxes (columnBoxes 201)).length = 200 ∧
      (recognizedBoxes (Process (sampleEnv (columnBoxes 201)) sampleClock sampleEngine
        sampleImage).calls).length = 200 :=
  ⟨columnBoxes_length 201,
    ((Process_cap (sampleEnv (columnBoxes 201)) sampleClock sampleEngine sampleImage () ()
      rfl rfl insertionSortBy_contract).1.trans (by
        show ((MergeNearbyBoxesPrecision (columnBoxes 201)).filter
          (fun b => decide (fmul b.width b.height ≥ 4))).take
            (min ((MergeNearbyBoxesPrecision (columnBoxes 201)).filter
              (fun b => decide (fmul b.width b.height ≥ 4))).length 200) =
          (columnBoxes 201).take 200
        rw [columnBoxes_filter, columnBoxes_length]
        rfl)),
    (Process_cap (sampleEnv (columnBoxes 201)) sampleClock sampleEngine sampleImage () ()
      rfl rfl insertionSortBy_contract).2.2.1
      (by
        show 200 < ((MergeNearbyBoxesPrecision (columnBoxes 201)).filter
          (fun b => decide (fmul b.width b.height ≥ 4))).length
        rw [columnBoxes_filter, columnBoxes_length]
        norm_num)⟩

/-- C4: on an initialized engine whose detector yields zero boxes, `Process`
returns the empty sequence, the benchmark's recognition time is 0 afterwards,
and the detector call is the only collaborator call: the recognizer is not
invoked. -/
theorem Process_zero_boxes {δ ρ : Type} (env : Env δ ρ) (clock : Nat → Int)
    (engine : OcrEngine δ ρ) (image : Image) (detector : δ) (recognizer : ρ)
    (hd : engine.detector_ = some detector) (hr : engine.recognizer_ = some recognizer)
    (hzero : (env.Detect detector image).1.1 = []) :
    (Process env clock engine image).results = [] ∧
      (Process env clock engine image).engine.benchmark_.recognition_time_ms = 0 ∧
      (Process env clock engine image).calls = [Call.detect image] ∧
      recognizedBoxes (Process env clock engine image).calls = [] := by
  unfold Process
  simp [hd, hr, hzero, finalizeBenchmark, recognizedBoxes]

/-- Instance of `Process_zero_boxes`: the detector of `sampleEnv []` finds nothing;
the recognition time, 8 before the call, is 0 after it. -/
theorem Process_zero_boxes_witness :
    sampleEngine.benchmark_.recognition_time_ms = 8 ∧
      (Process (sampleEnv []) sampleClock sampleEngine sampleImage).results = [] ∧
      (Process (sampleEnv []) sampleClock sampleEngine
        sampleImage).engine.benchmark_.recognition_time_ms = 0 ∧
      (Process (sampleEnv []) sampleClock sampleEngine sampleImage).calls =
        [Call.detect sampleImage] ∧
      recognizedBoxes (Process (sampleEnv []) sampleClock sampleEngine sampleImage).calls = [] :=
  ⟨rfl, Process_zero_boxes (sampleEnv []) sampleClock sampleEngine sampleImage () () rfl rfl rfl⟩

/-- C7: on an engine that lacks a detector or lacks a recognizer, `Process`
returns the empty sequence, makes no collaborator call at all, and leaves the
engine, hence all four fields of its benchmark snapshot, as it was. -/
theorem Process_not_initialized {δ ρ : Type} (env : Env δ ρ) (clock : Nat → Int)
    (engine : OcrEngine δ ρ) (image : Image)
    (h : engine.detector_ = none ∨ engine.recognizer_ = none) :
    (Process env clock engine image).results = [] ∧
      (Process env clock engine image).calls = [] ∧
      (Process env clock engine image).engine.benchmark_ = engine.benchmark_ ∧
      (Process env clock engine image).engine.benchmark_.detection_time_ms =
        engine.benchmark_.detection_time_ms ∧
      (Process env clock engine image).engine.benchmark_.recognition_time_ms =
        engine.benchmark_.recognition_time_ms ∧
      (Process env clock engine image).engine.benchmark_.total_time_ms =
        engine.benchmark_.total_time_ms ∧
      (Process env clock engine image).engine.benchmark_.fps = engine.benchmark_.fps := by
  rw [Process_uninitialized env clock engine image h]
  exact ⟨rfl, rfl, rfl, rfl, rfl, rfl, rfl⟩

/-- Instance of `Process_not_initialized`: an engine without a recognizer, whose
detector would report three boxes. -/
theorem Process_not_initialized_witness :
    (Process (sampleEnv threeBoxes) sampleClock brokenEngine sampleImage).results = [] ∧
      (Process (sampleEnv threeBoxes) sampleClock brokenEngine sampleImage).calls = [] ∧
      (Process (sampleEnv threeBoxes) sampleClock brokenEngine sampleImage).engine.benchmark_ =
        { detection_time_ms := 7, recognition_time_ms := 8, total_time_ms := 20, fps := 50 } :=
  ⟨(Process_not_initialized (sampleEnv threeBoxes) sampleClock brokenEngine sampleImage
      (Or.inr rfl)).1,
    (Process_not_initialized (sampleEnv threeBoxes) sampleClock brokenEngine sampleImage
      (Or.inr rfl)).2.1,
    (Process_not_initialized (sampleEnv threeBoxes) sampleClock brokenEngine sampleImage
      (Or.inr rfl)).2.2.1⟩

/-- C8: on an initialized engine, with a `std::sort` that meets its contract, the
recognizer is asked about the retained boxes in sorted order (a rearrangement of
the retained boxes by non-increasing `float` product `width * height`), and the
returned sequence consists, in that order, of exactly the answers with
non-empty text and confidence at least 0.0, each carrying the recognizer's text
and confidence and the box it was asked about. Hence every result has non-empty
text and confidence at least 0.0, and every such answer appears among the
results. -/
theorem Process_accepts {δ ρ : Type} (env : Env δ ρ) (clock : Nat → Int)
    (engine : OcrEngine δ ρ) (image : Image) (detector : δ) (recognizer : ρ)
    (hd : engine.detector_ = some detector) (hr : engine.recognizer_ = some recognizer)
    (hsort : StdSortContract env.std_sort) :
    (sortedBoxes env.std_sort (retainedBoxes (env.Detect detector image).1.1)).Perm
        (retainedBoxes (env.Detect detector image).1.1) ∧
      (sortedBoxes env.std_sort (retainedBoxes (env.Detect detector image).1.1)).Pairwise
        (fun a b => fmul a.width a.height ≥ fmul b.width b.height) ∧
      (recognizerAnswers env image
        (sortedBoxes env.std_sort (retainedBoxes (env.Detect detector image).1.1))
        recognizer).map Prod.fst =
        sortedBoxes env.std_sort (retainedBoxes (env.Detect detector image).1.1) ∧
      (Process env clock engine image).results =
        (recognizerAnswers env image
          (sortedBoxes env.std_sort (retainedBoxes (env.Detect detector image).1.1))
          recognizer).filterMap acceptAnswer ∧
      (∀ r ∈ (Process env clock engine image).results, r.text ≠ "" ∧ r.confidence ≥ 0) ∧
      (∀ a ∈ recognizerAnswers env image
          (sortedBoxes env.std_sort (retainedBoxes (env.Detect detector image).1.1)) recognizer,
        a.2.text ≠ "" → a.2.confidence ≥ 0 →
          ({ text := a.2.text, confidence := a.2.confidence, box := a.1 } : OcrResult) ∈
            (Process env clock engine image).results) := by
  have hres := (Process_results_answers env clock engine image detector recognizer hd hr hsort).1
  refine ⟨sortedBoxes_perm hsort _, sortedBoxes_pairwise hsort _,
    recognizerAnswers_map_fst env image _ _, hres, ?_, ?_⟩
  · intro r hmem
    rw [hres, List.mem_filterMap] at hmem
    obtain ⟨a, _, ha⟩ := hmem
    obtain ⟨_, h2, h3, h4, h5⟩ := acceptAnswer_box ha
    rw [h2, h3]
    exact ⟨h4, h5⟩
  · intro a hmem htext hconf
    rw [hres, List.mem_filterMap]
    exact ⟨a, hmem, if_pos ⟨htext, hconf⟩⟩

/-- Instance of `Process_accepts`: of three detected boxes two are retained, and
both are returned with the recognizer's text "a", larger box first. -/
theorem Process_accepts_witness :
    (Process (sampleEnv threeBoxes) sampleClock sampleEngine sampleImage).results =
        [{ text := "a", confidence := 1 / 2,
           box := { center_x := 50, center_y := 50, width := 10, height := 20,
                    confidence := 3 / 4 } },
         { text := "a", confidence := 1 / 2,
           box := { center_x := 200, center_y := 200, width := 3, height := 2,
                    confidence := 5 / 8 } }] ∧
      ∀ r ∈ (Process (sampleEnv threeBoxes) sampleClock sampleEngine sampleImage).results,
        r.text ≠ "" ∧ r.confidence ≥ 0 :=
  ⟨by decide!, (Process_accepts (sampleEnv threeBoxes) sampleClock sampleEngine sampleImage () ()
    rfl rfl insertionSortBy_contract).2.2.2.2.1⟩

/-! ## Further properties of `Process` -/

/-- The order of the results is that of the `float` products, not of the exact
areas: a box 30 by 13.333333f (exact area 399.99999...) is recognised before a
box 20 by 20, both products being 400.0f. -/
theorem Process_exact_area_ascends :
    (Process (sampleEnv flatBoxes) sampleClock sampleEngine sampleImage).results.map
        OcrResult.boxArea = [209715195 / 524288, 400] ∧
      (209715195 / 524288 : ℚ) < 400 := by
  decide!

theorem finalizeBenchmark_fps (d r t : ℚ) :
    (t > 0 → (finalizeBenchmark d r t).fps =
        fdiv 1000 (finalizeBenchmark d r t).total_time_ms) ∧
      (t = 0 → (finalizeBenchmark d r t).fps = 0) := by
  unfold finalizeBenchmark
  constructor
  · intro h; simp [h]
  · intro h; simp [h]

/-- On an initialized engine every return path writes the benchmark through
`finalizeBenchmark`, with the detector's elapsed time as detection time. -/
theorem Process_benchmark {δ ρ : Type} (env : Env δ ρ) (clock : Nat → Int)
    (engine : OcrEngine δ ρ) (image : Image) (detector : δ) (recognizer : ρ)
    (hd : engine.detector_ = some detector) (hr : engine.recognizer_ = some recognizer) :
    ∃ r t, (Process env clock engine image).engine.benchmark_ =
      finalizeBenchmark (env.Detect detector image).1.2 r t := by
  unfold Process
  simp only [hd, hr]
  split
  · exact ⟨_, _, rfl⟩
  · split
    · exact ⟨_, _, rfl⟩
    · exact ⟨_, _, rfl⟩

/-- C12, as stated, fails: on the normal path with the recognizer taking 3 ms in
all, the stored total time is 3 and the stored fps is the `float` quotient
1000.0f / 3.0f = 333.333343505859375, not 1000 / 3. -/
theorem Process_fps_exact_fails :
    (Process (sampleEnv threeBoxes) sampleClock sampleEngine
        sampleImage).engine.benchmark_.total_time_ms = 3 ∧
      (Process (sampleEnv threeBoxes) sampleClock sampleEngine
        sampleImage).engine.benchmark_.fps = 10922667 / 32768 ∧
      ¬ ((Process (sampleEnv threeBoxes) sampleClock sampleEngine
          sampleImage).engine.benchmark_.total_time_ms > 0 →
        (Process (sampleEnv threeBoxes) sampleClock sampleEngine
          sampleImage).engine.benchmark_.fps =
          1000 / (Process (sampleEnv threeBoxes) sampleClock sampleEngine
            sampleImage).engine.benchmark_.total_time_ms) := by
  decide!

/-- C12, amended: after every `Process` call on an initialized engine, whichever of
the three return paths is taken, when `total_time_ms > 0` the stored `fps` is
the `float` quotient of 1000 by the stored `total_time_ms`, the `float` nearest
to `1000 / total_time_ms`, which differs from it by at most `2 ^ (K - 24)` for
every `K >= -126` with `1000 / total_time_ms <= 2 ^ K`; and `fps = 0` when
`total_time_ms = 0`. -/
theorem Process_fps {δ ρ : Type} (env : Env δ ρ) (clock : Nat → Int)
    (engine : OcrEngine δ ρ) (image : Image) (detector : δ) (recognizer : ρ)
    (hd : engine.detector_ = some detector) (hr : engine.recognizer_ = some recognizer) :
    ((Process env clock engine image).engine.benchmark_.total_time_ms > 0 →
        (Process env clock engine image).engine.benchmark_.fps =
            fdiv 1000 (Process env clock engine image).engine.benchmark_.total_time_ms ∧
          ∀ K : ℤ, -126 ≤ K →
            1000 / (Process env clock engine image).engine.benchmark_.total_time_ms ≤
              (2 : ℚ) ^ K →
            |(Process env clock engine image).engine.benchmark_.fps -
                1000 / (Process env clock engine image).engine.benchmark_.total_time_ms| ≤
              (2 : ℚ) ^ (K - 24)) ∧
      ((Process env clock engine image).engine.benchmark_.total_time_ms = 0 →
        (Process env clock engine image).engine.benchmark_.fps = 0) := by
  obtain ⟨r, t, h⟩ := Process_benchmark env clock engine image detector recognizer hd hr
  rw [h]
  refine ⟨fun hpos => ?_, (finalizeBenchmark_fps _ r t).2⟩
  have hfps := (finalizeBenchmark_fps (env.Detect detector image).1.2 r t).1 hpos
  refine ⟨hfps, fun K hK hle => ?_⟩
  rw [hfps]
  have hpos2 : (finalizeBenchmark (env.Detect detector image).1.2 r t).total_time_ms > 0 := hpos
  have hq : (0 : ℚ) ≤ 1000 / (finalizeBenchmark (env.Detect detector image).1.2 r t).total_time_ms :=
    div_nonneg (by norm_num) (le_of_lt hpos2)
  exact f32_err _ K hK (by rwa [abs_of_nonneg hq])

/-- Instance of `Process_fps`: with `sampleClock` the normal path takes 3 ms and the
no-detection path 1 ms; with `frozenClock` the total time is 0. -/
theorem Process_fps_witness :
    (Process (sampleEnv threeBoxes) sampleClock sampleEngine sampleImage).engine.benchmark_.fps =
        10922667 / 32768 ∧
      (Process (sampleEnv []) sampleClock sampleEngine sampleImage).engine.benchmark_.fps =
        1000 ∧
      (Process (sampleEnv threeBoxes) frozenClock sampleEngine sampleImage).engine.benchmark_.fps =
        0 :=
  ⟨(((Process_fps (sampleEnv threeBoxes) sampleClock sampleEngine sampleImage () () rfl rfl).1
      (by decide!)).1).trans (by decide!),
    (((Process_fps (sampleEnv []) sampleClock sampleEngine sampleImage () () rfl rfl).1
      (by decide!)).1).trans (by decide!),
    (Process_fps (sampleEnv threeBoxes) frozenClock sampleEngine sampleImage () () rfl rfl).2
      (by decide!)⟩

/-- C15, as stated, fails: the detector yields one box, 1.1f by 3.6363635f, which
is also the merger's output; its area `width * height` is below 4.0, yet the
recognizer is invoked on it and one result is returned. -/
theorem Process_no_survivors_exact_fails :
    edgeBoxes ≠ [] ∧
      (∀ b ∈ edgeBoxes, b.isFloat) ∧
      (∀ b ∈ MergeNearbyBoxesPrecision edgeBoxes, ¬ b.width * b.height ≥ 4) ∧
      (Process (sampleEnv edgeBoxes) sampleClock sampleEngine sampleImage).results ≠ [] ∧
      recognizedBoxes (Process (sampleEnv edgeBoxes) sampleClock sampleEngine
        sampleImage).calls ≠ [] ∧
      (Process (sampleEnv edgeBoxes) sampleClock sampleEngine
        sampleImage).engine.benchmark_.recognition_time_ms ≠ 0 := by
  decide!

/-- C15, amended: on an initialized engine whose detector yields at least one box
while no merged box has a `float` product `width * height` of at least 4.0 (as
is the case when every merged box has an area below `4 - 2 ^ (-23)`),
`Process` returns the empty sequence, the detector call is the only
collaborator call (the recognizer is never invoked), the benchmark's
recognition time is 0 and its detection time is the elapsed time reported by
the detector. -/
theorem Process_no_survivors {δ ρ : Type} (env : Env δ ρ) (clock : Nat → Int)
    (engine : OcrEngine δ ρ) (image : Image) (detector : δ) (recognizer : ρ)
    (hd : engine.detector_ = some detector) (hr : engine.recognizer_ = some recognizer)
    (hsome : (env.Detect detector image).1.1 ≠ [])
    (hsmall : ∀ b ∈ MergeNearbyBoxesPrecision (env.Detect detector image).1.1,
      ¬ fmul b.width b.height ≥ 4) :
    (Process env clock engine image).results = [] ∧
      (Process env clock engine image).calls = [Call.detect image] ∧
      recognizedBoxes (Process env clock engine image).calls = [] ∧
      (Process env clock engine image).engine.benchmark_.recognition_time_ms = 0 ∧
      (Process env clock engine image).engine.benchmark_.detection_time_ms =
        (env.Detect detector image).1.2 := by
  have hfilt : filterLoop (MergeNearbyBoxesPrecision (env.Detect detector image).1.1) [] = [] := by
    rw [filterLoop_nil]
    have : (MergeNearbyBoxesPrecision (env.Detect detector image).1.1).filter
        (fun b => decide (fmul b.width b.height ≥ kMinBoxArea)) = [] := by
      rw [List.filter_eq_nil_iff]
      intro b hb
      simpa [kMinBoxArea] using hsmall b hb
    rw [this]
    rfl
  unfold Process
  simp [hd, hr, hsome, hfilt, finalizeBenchmark, recognizedBoxes]

/-- Instance of `Process_no_survivors`: the detector reports one box of area 1 in
5 ms. -/
theorem Process_no_survivors_witness :
    (Process (sampleEnv tinyBoxes) sampleClock sampleEngine sampleImage).results = [] ∧
      (Process (sampleEnv tinyBoxes) sampleClock sampleEngine sampleImage).calls =
        [Call.detect sampleImage] ∧
      recognizedBoxes (Process (sampleEnv tinyBoxes) sampleClock sampleEngine sampleImage).calls =
        [] ∧
      (Process (sampleEnv tinyBoxes) sampleClock sampleEngine
        sampleImage).engine.benchmark_.recognition_time_ms = 0 ∧
      (Process (sampleEnv tinyBoxes) sampleClock sampleEngine
        sampleImage).engine.benchmark_.detection_time_ms = 5 :=
  Process_no_survivors (sampleEnv tinyBoxes) sampleClock sampleEngine sampleImage () () rfl rfl
    (by decide) (by decide!)

/-! ## Properties of `Create` -/

theorem warmupLoop_calls {δ ρ : Type} (env : Env δ ρ) :
    ∀ (n : Nat) (detector : δ),
      (warmupLoop env n detector).2 = List.replicate n (Call.detect dummy_image) := by
  intro n
  induction n with
  | zero => intro d; rfl
  | succ k ih => intro d; simp [warmupLoop, ih, List.replicate_succ]

theorem WarmUp_calls {δ ρ : Type} (env : Env δ ρ) (engine : OcrEngine δ ρ) :
    ∀ c ∈ (WarmUp env engine).2, c = Call.detect dummy_image := by
  intro c hc
  unfold WarmUp at hc
  cases hd : engine.detector_ with
  | none => simp [hd] at hc
  | some d =>
    simp only [hd, warmupLoop_calls] at hc
    exact List.eq_of_mem_replicate hc

theorem attemptedAccelerators_WarmUp {δ ρ : Type} (env : Env δ ρ) (engine : OcrEngine δ ρ) :
    attemptedAccelerators (WarmUp env engine).2 = [] := by
  unfold attemptedAccelerators
  rw [List.filterMap_eq_nil_iff]
  intro c hc
  rw [WarmUp_calls env engine c hc]

theorem kFallbackChain_getD_ne_npu (i : Nat) :
    kFallbackChain.getD i AcceleratorType.kCpu ≠ AcceleratorType.kNpu := by
  match i with
  | 0 => simp [kFallbackChain]
  | 1 => simp [kFallbackChain]
  | _ + 2 => simp [kFallbackChain]

/-- Every constructor call of the loop is made with an entry of the fallback table. -/
theorem createLoop_not_npu {δ ρ : Type} (env : Env δ ρ)
    (det_model_path rec_model_path keys_path : String) (engine : OcrEngine δ ρ) :
    ∀ (n i : Nat),
      ∀ c ∈ (createLoop env det_model_path rec_model_path keys_path engine n i).2,
        c.constructedFor ≠ some AcceleratorType.kNpu := by
  intro n
  induction n with
  | zero => intro i c hc; simp [createLoop] at hc
  | succ k ih =>
    intro i c hc
    have hne := kFallbackChain_getD_ne_npu i
    unfold createLoop at hc
    cases h1 : env.detectorCreate det_model_path (kFallbackChain.getD i AcceleratorType.kCpu) with
    | none =>
      simp only [h1, List.mem_cons] at hc
      rcases hc with hc | hc
      · rw [hc]; simpa [Call.constructedFor] using hne
      · exact ih (i + 1) c hc
    | some d =>
      cases h2 : env.recognizerCreate rec_model_path keys_path
          (kFallbackChain.getD i AcceleratorType.kCpu) with
      | none =>
        simp only [h1, h2, List.mem_cons] at hc
        rcases hc with hc | hc | hc
        · rw [hc]; simpa [Call.constructedFor] using hne
        · rw [hc]; simpa [Call.constructedFor] using hne
        · exact ih (i + 1) c hc
      | some r =>
        simp only [h1, h2, List.mem_cons] at hc
        rcases hc with hc | hc | hc
        · rw [hc]; simpa [Call.constructedFor] using hne
        · rw [hc]; simpa [Call.constructedFor] using hne
        · rw [WarmUp_calls env _ c hc]; simp [Call.constructedFor]

/-- C5: whatever the constructors answer, `Create` attempts the accelerators of the
fallback rule in order (GPU then CPU for a requested GPU or NPU, CPU only for a
requested CPU) and stops after the first one on which both constructions
succeed; no constructor is ever called with NPU. -/
theorem Create_fallback_order {δ ρ : Type} (env : Env δ ρ)
    (det_model_path rec_model_path keys_path : String) (requested : AcceleratorType) :
    attemptedAccelerators (Create env det_model_path rec_model_path keys_path requested).2 =
        triedUntilSuccess (bothSucceed env det_model_path rec_model_path keys_path)
          (fallbackCandidates requested) ∧
      ∀ c ∈ (Create env det_model_path rec_model_path keys_path requested).2,
        c.constructedFor ≠ some AcceleratorType.kNpu := by
  constructor
  · cases requested <;>
      simp only [Create, GetFallbackStartIndex, kFallbackChainSize, createLoop, kFallbackChain,
        fallbackCandidates, triedUntilSuccess, bothSucceed, List.getD_cons_zero,
        List.getD_cons_succ, Nat.sub_zero, Nat.reduceSub, Nat.zero_add, Nat.reduceAdd] <;>
      cases h1 : env.detectorCreate det_model_path AcceleratorType.kGpu <;>
      cases h2 : env.recognizerCreate rec_model_path keys_path AcceleratorType.kGpu <;>
      cases h3 : env.detectorCreate det_model_path AcceleratorType.kCpu <;>
      cases h4 : env.recognizerCreate rec_model_path keys_path AcceleratorType.kCpu <;>
      simp [attemptedAccelerators, List.filterMap_cons] <;>
      (intro a ha; rw [WarmUp_calls env _ a ha])
  · intro c hc
    exact createLoop_not_npu env det_model_path rec_model_path keys_path _ _ _ c hc

/-- C6: `Create` returns no engine exactly when no candidate of the fallback table
from the start index onward has both constructions succeed. Otherwise the
engine's active accelerator is the first such candidate, its detector is the one
constructed for that accelerator (after the warm-up passes) and its recognizer
is the one constructed for that same accelerator. -/
theorem Create_result {δ ρ : Type} (env : Env δ ρ)
    (det_model_path rec_model_path keys_path : String) (requested : AcceleratorType) :
    ((Create env det_model_path rec_model_path keys_path requested).1 = none ↔
        ∀ a ∈ kFallbackChain.drop (GetFallbackStartIndex requested),
          bothSucceed env det_model_path rec_model_path keys_path a = false) ∧
      ∀ engine, (Create env det_model_path rec_model_path keys_path requested).1 = some engine →
        (kFallbackChain.drop (GetFallbackStartIndex requested)).find?
            (bothSucceed env det_model_path rec_model_path keys_path) =
          some engine.active_accelerator_ ∧
        (∃ detector, env.detectorCreate det_model_path engine.active_accelerator_ = some detector ∧
          engine.detector_ = some (warmupLoop env kWarmupIterations detector).1) ∧
        (∃ recognizer, env.recognizerCreate rec_model_path keys_path engine.active_accelerator_ =
            some recognizer ∧ engine.recognizer_ = some recognizer) := by
  constructor
  · cases requested <;>
      simp only [Create, GetFallbackStartIndex, kFallbackChainSize, createLoop, kFallbackChain,
        bothSucceed, List.getD_cons_zero, List.getD_cons_succ, Nat.sub_zero, Nat.reduceSub,
        Nat.zero_add, Nat.reduceAdd] <;>
      cases h1 : env.detectorCreate det_model_path AcceleratorType.kGpu <;>
      cases h2 : env.recognizerCreate rec_model_path keys_path AcceleratorType.kGpu <;>
      cases h3 : env.detectorCreate det_model_path AcceleratorType.kCpu <;>
      cases h4 : env.recognizerCreate rec_model_path keys_path AcceleratorType.kCpu <;>
      simp [h1, h2, h3, h4]
  · intro engine
    cases requested <;>
      simp only [Create, GetFallbackStartIndex, kFallbackChainSize, createLoop, kFallbackChain,
        bothSucceed, List.getD_cons_zero, List.getD_cons_succ, Nat.sub_zero, Nat.reduceSub,
        Nat.zero_add, Nat.reduceAdd] <;>
      cases h1 : env.detectorCreate det_model_path AcceleratorType.kGpu <;>
      cases h2 : env.recognizerCreate rec_model_path keys_path AcceleratorType.kGpu <;>
      cases h3 : env.detectorCreate det_model_path AcceleratorType.kCpu <;>
      cases h4 : env.recognizerCreate rec_model_path keys_path AcceleratorType.kCpu <;>
      simp only [WarmUp, reduceCtorEq, Option.some.injEq, false_implies] <;>
      intro he <;> subst he <;>
      simp [h1, h2, h3, h4, List.find?, bothSucceed]

/-! ## Warm-up -/

theorem warmupPixels_length :
    ∀ (n : Nat) (img : List Nat), (warmupPixels n img).length = img.length := by
  intro n
  induction n with
  | zero => intro img; rfl
  | succ k ih => intro img; simp [warmupPixels, ih]

/-- After the pixel loop has run for `i = 0, ..., n - 1`, each of these pixels that
lies inside the buffer holds the pattern bytes. -/
theorem warmupPixels_getElem? :
    ∀ (n : Nat) (img : List Nat) (i : Nat), i < n → i * 4 + 3 < img.length →
      (warmupPixels n img)[i * 4]? = some ((i * 7) % 256) ∧
        (warmupPixels n img)[i * 4 + 1]? = some ((i * 11) % 256) ∧
        (warmupPixels n img)[i * 4 + 2]? = some ((i * 13) % 256) ∧
        (warmupPixels n img)[i * 4 + 3]? = some 255 := by
  intro n
  induction n with
  | zero => intro img i hi; omega
  | succ k ih =>
    intro img i hi hlen
    have hl := warmupPixels_length k img
    rcases Nat.lt_succ_iff_lt_or_eq.mp hi with hlt | heq
    · obtain ⟨h0, h1, h2, h3⟩ := ih img i hlt hlen
      simp only [warmupPixels, Nat.add_zero]
      refine ⟨?_, ?_, ?_, ?_⟩
      · rw [List.getElem?_set_ne (by omega), List.getElem?_set_ne (by omega),
          List.getElem?_set_ne (by omega), List.getElem?_set_ne (by omega)]
        exact h0
      · rw [List.getElem?_set_ne (by omega), List.getElem?_set_ne (by omega),
          List.getElem?_set_ne (by omega), List.getElem?_set_ne (by omega)]
        exact h1
      · rw [List.getElem?_set_ne (by omega), List.getElem?_set_ne (by omega),
          List.getElem?_set_ne (by omega), List.getElem?_set_ne (by omega)]
        exact h2
      · rw [List.getElem?_set_ne (by omega), List.getElem?_set_ne (by omega),
          List.getElem?_set_ne (by omega), List.getElem?_set_ne (by omega)]
        exact h3
    · subst heq
      simp only [warmupPixels, Nat.add_zero]
      refine ⟨?_, ?_, ?_, ?_⟩
      · rw [List.getElem?_set_ne (by omega), List.getElem?_set_ne (by omega),
          List.getElem?_set_ne (by omega),
          List.getElem?_set_self (by simp only [List.length_set, hl]; omega)]
      · rw [List.getElem?_set_ne (by omega), List.getElem?_set_ne (by omega),
          List.getElem?_set_self (by simp only [List.length_set, hl]; omega)]
      · rw [List.getElem?_set_ne (by omega),
          List.getElem?_set_self (by simp only [List.length_set, hl]; omega)]
      · rw [List.getElem?_set_self (by simp only [List.length_set, hl]; omega)]

theorem WarmUp_some {δ ρ : Type} (env : Env δ ρ) (engine : OcrEngine δ ρ) (detector : δ)
    (h : engine.detector_ = some detector) :
    WarmUp env engine =
      ({ engine with detector_ := some (warmupLoop env kWarmupIterations detector).1 },
        List.replicate kWarmupIterations (Call.detect dummy_image)) := by
  unfold WarmUp
  simp only [h]
  rw [warmupLoop_calls]

/-- Warm-up touches the detector only: benchmark, recognizer and active
accelerator are as before, and every call it makes is a detection on
`dummy_image`. -/
theorem WarmUp_frame {δ ρ : Type} (env : Env δ ρ) (engine : OcrEngine δ ρ) :
    (WarmUp env engine).1.benchmark_ = engine.benchmark_ ∧
      (WarmUp env engine).1.recognizer_ = engine.recognizer_ ∧
      (WarmUp env engine).1.active_accelerator_ = engine.active_accelerator_ ∧
      recognizedBoxes (WarmUp env engine).2 = [] := by
  cases hd : engine.detector_ with
  | none => simp [WarmUp, hd, recognizedBoxes]
  | some d =>
    rw [WarmUp_some env engine d hd]
    refine ⟨rfl, rfl, rfl, ?_⟩
    unfold recognizedBoxes
    rw [List.filterMap_eq_nil_iff]
    intro c hc
    rw [List.eq_of_mem_replicate hc]

theorem detectedImages_append (l₁ l₂ : List Call) :
    detectedImages (l₁ ++ l₂) = detectedImages l₁ ++ detectedImages l₂ := by
  unfold detectedImages
  exact List.filterMap_append _ _ _

theorem recognizedBoxes_append (l₁ l₂ : List Call) :
    recognizedBoxes (l₁ ++ l₂) = recognizedBoxes l₁ ++ recognizedBoxes l₂ := by
  unfold recognizedBoxes
  exact List.filterMap_append _ _ _

theorem detectedImages_constructors (l : List Call) (h : ∀ c ∈ l, c.constructedFor ≠ none) :
    detectedImages l = [] ∧ recognizedBoxes l = [] := by
  unfold detectedImages recognizedBoxes
  constructor
  · rw [List.filterMap_eq_nil_iff]
    intro c hc
    have := h c hc
    cases c <;> simp [Call.constructedFor] at this ⊢
  · rw [List.filterMap_eq_nil_iff]
    intro c hc
    have := h c hc
    cases c <;> simp [Call.constructedFor] at this ⊢

theorem detectedImages_replicate (n : Nat) (image : Image) :
    detectedImages (List.replicate n (Call.detect image)) = List.replicate n image ∧
      recognizedBoxes (List.replicate n (Call.detect image)) = [] := by
  induction n with
  | zero => exact ⟨rfl, rfl⟩
  | succ k ih =>
    constructor
    · simp only [List.replicate_succ, detectedImages, List.filterMap_cons] at ih ⊢
      rw [ih.1]
    · simp only [List.replicate_succ, recognizedBoxes, List.filterMap_cons] at ih ⊢
      rw [ih.2]

/-- The calls of the construction loop: constructor calls only when it fails; on
success constructor calls followed by the warm-up detections, on the detector
constructed for the accelerator that becomes active. -/
theorem createLoop_calls {δ ρ : Type} (env : Env δ ρ)
    (det_model_path rec_model_path keys_path : String) (engine : OcrEngine δ ρ) :
    ∀ (n i : Nat),
      (∀ e, (createLoop env det_model_path rec_model_path keys_path engine n i).1 = some e →
        ∃ constructors detector,
          (createLoop env det_model_path rec_model_path keys_path engine n i).2 =
            constructors ++ List.replicate kWarmupIterations (Call.detect dummy_image) ∧
          (∀ c ∈ constructors, c.constructedFor ≠ none) ∧
          e.benchmark_ = engine.benchmark_ ∧
          env.detectorCreate det_model_path e.active_accelerator_ = some detector ∧
          e.detector_ = some (warmupLoop env kWarmupIterations detector).1) ∧
      ((createLoop env det_model_path rec_model_path keys_path engine n i).1 = none →
        ∀ c ∈ (createLoop env det_model_path rec_model_path keys_path engine n i).2,
          c.constructedFor ≠ none) := by
  intro n
  induction n with
  | zero =>
    intro i
    simp [createLoop]
  | succ k ih =>
    intro i
    obtain ⟨ih1, ih2⟩ := ih (i + 1)
    unfold createLoop
    cases h1 : env.detectorCreate det_model_path (kFallbackChain.getD i AcceleratorType.kCpu) with
    | none =>
      simp only [h1]
      constructor
      · intro e he
        obtain ⟨ctor, d0, hc1, hc2, hc3, hc4, hc5⟩ := ih1 e he
        refine ⟨Call.detectorCreate det_model_path (kFallbackChain.getD i AcceleratorType.kCpu)
          :: ctor, d0, by rw [hc1]; rfl, ?_, hc3, hc4, hc5⟩
        intro c hc
        rcases List.mem_cons.mp hc with hc | hc
        · rw [hc]; simp [Call.constructedFor]
        · exact hc2 c hc
      · intro hnone c hc
        rcases List.mem_cons.mp hc with hc | hc
        · rw [hc]; simp [Call.constructedFor]
        · exact ih2 hnone c hc
    | some d =>
      cases h2 : env.recognizerCreate rec_model_path keys_path
          (kFallbackChain.getD i AcceleratorType.kCpu) with
      | none =>
        simp only [h1, h2]
        constructor
        · intro e he
          obtain ⟨ctor, d0, hc1, hc2, hc3, hc4, hc5⟩ := ih1 e he
          refine ⟨Call.detectorCreate det_model_path (kFallbackChain.getD i AcceleratorType.kCpu)
            :: Call.recognizerCreate rec_model_path keys_path
              (kFallbackChain.getD i AcceleratorType.kCpu) :: ctor, d0, by rw [hc1]; rfl, ?_,
            hc3, hc4, hc5⟩
          intro c hc
          rcases List.mem_cons.mp hc with hc | hc
          · rw [hc]; simp [Call.constructedFor]
          · rcases List.mem_cons.mp hc with hc | hc
            · rw [hc]; simp [Call.constructedFor]
            · exact hc2 c hc
        · intro hnone c hc
          rcases List.mem_cons.mp hc with hc | hc
          · rw [hc]; simp [Call.constructedFor]
          · rcases List.mem_cons.mp hc with hc | hc
            · rw [hc]; simp [Call.constructedFor]
            · exact ih2 hnone c hc
      | some r =>
        simp only [h1, h2]
        rw [WarmUp_some env _ d rfl]
        constructor
        · intro e he
          simp only [Option.some.injEq] at he
          subst he
          refine ⟨[Call.detectorCreate det_model_path (kFallbackChain.getD i AcceleratorType.kCpu),
            Call.recognizerCreate rec_model_path keys_path
              (kFallbackChain.getD i AcceleratorType.kCpu)], d, rfl, ?_, rfl, h1, rfl⟩
          intro c hc
          simp only [List.mem_cons, List.mem_nil_iff, or_false] at hc
          rcases hc with hc | hc <;> (rw [hc]; simp [Call.constructedFor])
        · intro hnone
          simp at hnone

/-- C13: when `Create` succeeds, its calls are constructor calls followed by exactly
3 detections, each on `dummy_image`, made on the detector constructed for the
active accelerator; the recognizer is not invoked and the benchmark is the one
of the freshly constructed engine. Warm-up itself never changes the benchmark.
`dummy_image` is 128 wide and high with row stride 512, and its pixel `i` holds
the bytes `7 i mod 256`, `11 i mod 256`, `13 i mod 256`, `255`. When `Create`
fails no detection is run. -/
theorem Create_warmup {δ ρ : Type} (env : Env δ ρ)
    (det_model_path rec_model_path keys_path : String) (requested : AcceleratorType) :
    (∀ engine, (Create env det_model_path rec_model_path keys_path requested).1 = some engine →
        detectedImages (Create env det_model_path rec_model_path keys_path requested).2 =
          [dummy_image, dummy_image, dummy_image] ∧
        recognizedBoxes (Create env det_model_path rec_model_path keys_path requested).2 = [] ∧
        engine.benchmark_ = env.benchmark_init ∧
        (∃ constructors,
          (Create env det_model_path rec_model_path keys_path requested).2 =
            constructors ++ List.replicate 3 (Call.detect dummy_image) ∧
          ∀ c ∈ constructors, c.constructedFor ≠ none) ∧
        ∃ detector,
          env.detectorCreate det_model_path engine.active_accelerator_ = some detector ∧
          engine.detector_ = some (env.Detect (env.Detect (env.Detect detector
            dummy_image).2 dummy_image).2 dummy_image).2) ∧
      ((Create env det_model_path rec_model_path keys_path requested).1 = none →
        detectedImages (Create env det_model_path rec_model_path keys_path requested).2 = []) ∧
      (∀ engine : OcrEngine δ ρ, (WarmUp env engine).1.benchmark_ = engine.benchmark_ ∧
        recognizedBoxes (WarmUp env engine).2 = []) ∧
      dummy_image.width = 128 ∧ dummy_image.height = 128 ∧ dummy_image.stride = 512 ∧
      dummy_image.data.length = 65536 ∧
      ∀ i, i < 16384 →
        dummy_image.data[i * 4]? = some ((7 * i) % 256) ∧
          dummy_image.data[i * 4 + 1]? = some ((11 * i) % 256) ∧
          dummy_image.data[i * 4 + 2]? = some ((13 * i) % 256) ∧
          dummy_image.data[i * 4 + 3]? = some 255 := by
  have hloop := createLoop_calls env det_model_path rec_model_path keys_path
    { detector_ := none, recognizer_ := none, active_accelerator_ := env.accelerator_init,
      benchmark_ := env.benchmark_init }
    (kFallbackChainSize - GetFallbackStartIndex requested) (GetFallbackStartIndex requested)
  have hdata : dummy_image.data = warmupPixels (kWarmupImageSize * kWarmupImageSize)
      (List.replicate (kWarmupImageSize * kWarmupImageSize * 4) 128) := by
    simp only [dummy_image]
  have hlen : dummy_image.data.length = 65536 := by
    rw [hdata, warmupPixels_length, List.length_replicate]
    simp only [kWarmupImageSize]
  refine ⟨?_, ?_, ?_, rfl, rfl, rfl, hlen, ?_⟩
  · intro engine he
    obtain ⟨ctor, d0, hc1, hc2, hc3, hc4, hc5⟩ := hloop.1 engine he
    have hcalls : (Create env det_model_path rec_model_path keys_path requested).2 =
        ctor ++ List.replicate 3 (Call.detect dummy_image) := hc1
    refine ⟨?_, ?_, hc3, ⟨ctor, hcalls, hc2⟩, ⟨d0, hc4, hc5⟩⟩
    · rw [hcalls, detectedImages_append, (detectedImages_constructors ctor hc2).1,
        (detectedImages_replicate 3 dummy_image).1]
      rfl
    · rw [hcalls, recognizedBoxes_append, (detectedImages_constructors ctor hc2).2,
        (detectedImages_replicate 3 dummy_image).2]
      rfl
  · intro hnone
    exact (detectedImages_constructors _ (hloop.2 hnone)).1
  · intro engine
    exact ⟨(WarmUp_frame env engine).1, (WarmUp_frame env engine).2.2.2⟩
  · intro i hi
    have hi' : i < kWarmupImageSize * kWarmupImageSize := by
      simp only [kWarmupImageSize]
      omega
    have h := warmupPixels_getElem? (kWarmupImageSize * kWarmupImageSize)
      (List.replicate (kWarmupImageSize * kWarmupImageSize * 4) 128) i hi'
      (by rw [List.length_replicate]; simp only [kWarmupImageSize]; omega)
    rw [Nat.mul_comm 7, Nat.mul_comm 11, Nat.mul_comm 13, hdata]
    exact h

/-! ## Rounding in one merge -/

theorem min_close {a b a' b' d : ℚ} (ha : |a - a'| ≤ d) (hb : |b - b'| ≤ d) :
    |min a b - min a' b'| ≤ d :=
  (abs_min_sub_min_le_max a b a' b').trans (max_le ha hb)

theorem max_close {a b a' b' d : ℚ} (ha : |a - a'| ≤ d) (hb : |b - b'| ≤ d) :
    |max a b - max a' b'| ≤ d :=
  (abs_max_sub_max_le_max a b a' b').trans (max_le ha hb)

theorem zpow_two_sub_21 (K : ℤ) : (2 : ℚ) ^ (K - 21) = 8 * (2 : ℚ) ^ (K - 24) := by
  have : K - 21 = (K - 24) + 3 := by ring
  rw [this, zpow_add₀ (by norm_num : (2 : ℚ) ≠ 0)]
  norm_num
  ring

theorem zpow_two_add_one_sub_24 (K : ℤ) : (2 : ℚ) ^ (K + 1 - 24) = 2 * (2 : ℚ) ^ (K - 24) := by
  have : K + 1 - 24 = (K - 24) + 1 := by ring
  rw [this, zpow_add₀ (by norm_num : (2 : ℚ) ≠ 0)]
  norm_num
  ring

theorem zpow_two_add_one (K : ℤ) : (2 : ℚ) ^ (K + 1) = 2 * (2 : ℚ) ^ K := by
  rw [zpow_add₀ (by norm_num : (2 : ℚ) ≠ 0)]
  norm_num
  ring

/-- One coordinate of a merge: with both boxes' extents in `[-E, E]`, the extents
of the merged box (centre minus or plus half the size) are within `2 ^ (K - 21)` of the
smaller of the two lower extents and of the larger of the two upper ones. -/
theorem envelope_err (K : ℤ) (hK : -126 ≤ K) (E c1 w1 c2 w2 : ℚ)
    (hE : E + (2 : ℚ) ^ (K - 21) ≤ (2 : ℚ) ^ K)
    (h1l : |c1 - w1 / 2| ≤ E) (h1r : |c1 + w1 / 2| ≤ E)
    (h2l : |c2 - w2 / 2| ≤ E) (h2r : |c2 + w2 / 2| ≤ E) :
    |fdiv (fadd (min (fsub c1 (fdiv w1 2)) (fsub c2 (fdiv w2 2)))
          (max (fadd c1 (fdiv w1 2)) (fadd c2 (fdiv w2 2)))) 2 -
        fsub (max (fadd c1 (fdiv w1 2)) (fadd c2 (fdiv w2 2)))
          (min (fsub c1 (fdiv w1 2)) (fsub c2 (fdiv w2 2))) / 2 -
        min (c1 - w1 / 2) (c2 - w2 / 2)| ≤ (2 : ℚ) ^ (K - 21) ∧
      |fdiv (fadd (min (fsub c1 (fdiv w1 2)) (fsub c2 (fdiv w2 2)))
          (max (fadd c1 (fdiv w1 2)) (fadd c2 (fdiv w2 2)))) 2 +
        fsub (max (fadd c1 (fdiv w1 2)) (fadd c2 (fdiv w2 2)))
          (min (fsub c1 (fdiv w1 2)) (fsub c2 (fdiv w2 2))) / 2 -
        max (c1 + w1 / 2) (c2 + w2 / 2)| ≤ (2 : ℚ) ^ (K - 21) := by
  have hK1 : -126 ≤ K + 1 := by omega
  have h8 := zpow_two_sub_21 K
  have h2 := zpow_two_add_one_sub_24 K
  have hP := zpow_two_add_one K
  have hepos : (0 : ℚ) < (2 : ℚ) ^ (K - 24) := by positivity
  have err := fun x h => f32_err x K hK h
  have err1 := fun x h => f32_err x (K + 1) hK1 h
  rw [h2, hP] at err1
  rw [h8] at hE ⊢
  generalize (2 : ℚ) ^ (K - 24) = e at *
  generalize (2 : ℚ) ^ K = P at *
  -- half sizes
  have hw1 : |w1 / 2| ≤ P := by
    rw [abs_le] at h1l h1r ⊢
    constructor <;> linarith
  have hw2 : |w2 / 2| ≤ P := by
    rw [abs_le] at h2l h2r ⊢
    constructor <;> linarith
  have ha1 : |fdiv w1 2 - w1 / 2| ≤ e := err _ hw1
  have ha2 : |fdiv w2 2 - w2 / 2| ≤ e := err _ hw2
  -- the four rounded extents
  have hl1 : |fsub c1 (fdiv w1 2) - (c1 - fdiv w1 2)| ≤ e := by
    apply err
    rw [abs_le] at h1l ha1 ⊢
    constructor <;> linarith
  have hl2 : |fsub c2 (fdiv w2 2) - (c2 - fdiv w2 2)| ≤ e := by
    apply err
    rw [abs_le] at h2l ha2 ⊢
    constructor <;> linarith
  have hr1 : |fadd c1 (fdiv w1 2) - (c1 + fdiv w1 2)| ≤ e := by
    apply err
    rw [abs_le] at h1r ha1 ⊢
    constructor <;> linarith
  have hr2 : |fadd c2 (fdiv w2 2) - (c2 + fdiv w2 2)| ≤ e := by
    apply err
    rw [abs_le] at h2r ha2 ⊢
    constructor <;> linarith
  have hL1 : |fsub c1 (fdiv w1 2) - (c1 - w1 / 2)| ≤ 2 * e := by
    rw [abs_le] at hl1 ha1 ⊢
    constructor <;> linarith
  have hL2 : |fsub c2 (fdiv w2 2) - (c2 - w2 / 2)| ≤ 2 * e := by
    rw [abs_le] at hl2 ha2 ⊢
    constructor <;> linarith
  have hR1 : |fadd c1 (fdiv w1 2) - (c1 + w1 / 2)| ≤ 2 * e := by
    rw [abs_le] at hr1 ha1 ⊢
    constructor <;> linarith
  have hR2 : |fadd c2 (fdiv w2 2) - (c2 + w2 / 2)| ≤ 2 * e := by
    rw [abs_le] at hr2 ha2 ⊢
    constructor <;> linarith
  have hlo := min_close hL1 hL2
  have hhi := max_close hR1 hR2
  have hmin : |min (c1 - w1 / 2) (c2 - w2 / 2)| ≤ E := by
    rcases min_choice (c1 - w1 / 2) (c2 - w2 / 2) with h | h <;> rw [h] <;> assumption
  have hmax : |max (c1 + w1 / 2) (c2 + w2 / 2)| ≤ E := by
    rcases max_choice (c1 + w1 / 2) (c2 + w2 / 2) with h | h <;> rw [h] <;> assumption
  generalize min (fsub c1 (fdiv w1 2)) (fsub c2 (fdiv w2 2)) = lo at *
  generalize max (fadd c1 (fdiv w1 2)) (fadd c2 (fdiv w2 2)) = hi at *
  generalize min (c1 - w1 / 2) (c2 - w2 / 2) = L at *
  generalize max (c1 + w1 / 2) (c2 + w2 / 2) = R at *
  have hs : |fadd lo hi - (lo + hi)| ≤ 2 * e := by
    apply err1
    rw [abs_le] at hlo hhi hmin hmax ⊢
    constructor <;> linarith
  have hc : |fdiv (fadd lo hi) 2 - fadd lo hi / 2| ≤ e := by
    apply err
    rw [abs_le] at hlo hhi hmin hmax hs ⊢
    constructor <;> linarith
  have hwd : |fsub hi lo - (hi - lo)| ≤ 2 * e := by
    apply err1
    rw [abs_le] at hlo hhi hmin hmax ⊢
    constructor <;> linarith
  rw [abs_le] at hlo hhi hs hc hwd
  constructor
  · rw [abs_le]
    constructor <;> linarith
  · rw [abs_le]
    constructor <;> linarith

/-- With both boxes' extents in `[-E, E]`, each extent of the merged box is within
`2 ^ (K - 21)` of the corresponding extent of the envelope of the two boxes. -/
theorem mergedBox_approx (K : ℤ) (hK : -126 ≤ K) (E : ℚ)
    (hE : E + (2 : ℚ) ^ (K - 21) ≤ (2 : ℚ) ^ K) (b1 b2 : RotatedRect)
    (h1 : b1.within E) (h2 : b2.within E) :
    |(mergedBox b1 b2).left - min b1.left b2.left| ≤ (2 : ℚ) ^ (K - 21) ∧
      |(mergedBox b1 b2).right - max b1.right b2.right| ≤ (2 : ℚ) ^ (K - 21) ∧
      |(mergedBox b1 b2).top - min b1.top b2.top| ≤ (2 : ℚ) ^ (K - 21) ∧
      |(mergedBox b1 b2).bottom - max b1.bottom b2.bottom| ≤ (2 : ℚ) ^ (K - 21) := by
  obtain ⟨h1l, h1r, h1t, h1b⟩ := h1
  obtain ⟨h2l, h2r, h2t, h2b⟩ := h2
  have hx := envelope_err K hK E b1.center_x b1.width b2.center_x b2.width hE h1l h1r h2l h2r
  have hy := envelope_err K hK E b1.center_y b1.height b2.center_y b2.height hE h1t h1b h2t h2b
  exact ⟨hx.1, hx.2, hy.1, hy.2⟩

theorem within_mono {b : RotatedRect} {E E' : ℚ} (h : b.within E) (hE : E ≤ E') :
    b.within E' :=
  ⟨h.1.trans hE, h.2.1.trans hE, h.2.2.1.trans hE, h.2.2.2.trans hE⟩

theorem mergedBox_within (K : ℤ) (hK : -126 ≤ K) (E : ℚ)
    (hE : E + (2 : ℚ) ^ (K - 21) ≤ (2 : ℚ) ^ K) (b1 b2 : RotatedRect)
    (h1 : b1.within E) (h2 : b2.within E) :
    (mergedBox b1 b2).within (E + (2 : ℚ) ^ (K - 21)) := by
  obtain ⟨hl, hr, ht, hb⟩ := mergedBox_approx K hK E hE b1 b2 h1 h2
  obtain ⟨h1l, h1r, h1t, h1b⟩ := h1
  obtain ⟨h2l, h2r, h2t, h2b⟩ := h2
  have hmin : ∀ x y : ℚ, |x| ≤ E → |y| ≤ E → |min x y| ≤ E := by
    intro x y hx hy
    rcases min_choice x y with h | h <;> rw [h] <;> assumption
  have hmax : ∀ x y : ℚ, |x| ≤ E → |y| ≤ E → |max x y| ≤ E := by
    intro x y hx hy
    rcases max_choice x y with h | h <;> rw [h] <;> assumption
  have key : ∀ m e : ℚ, |e| ≤ E → |m - e| ≤ (2 : ℚ) ^ (K - 21) →
      |m| ≤ E + (2 : ℚ) ^ (K - 21) := by
    intro m e he hme
    rw [abs_le] at he hme ⊢
    constructor <;> linarith
  exact ⟨key _ _ (hmin _ _ h1l h2l) hl, key _ _ (hmax _ _ h1r h2r) hr,
    key _ _ (hmin _ _ h1t h2t) ht, key _ _ (hmax _ _ h1b h2b) hb⟩

theorem mergedBox_coversUpTo (K : ℤ) (hK : -126 ≤ K) (E : ℚ)
    (hE : E + (2 : ℚ) ^ (K - 21) ≤ (2 : ℚ) ^ K) (b1 b2 : RotatedRect)
    (h1 : b1.within E) (h2 : b2.within E) :
    (mergedBox b1 b2).coversUpTo b1 ((2 : ℚ) ^ (K - 21)) ∧
      (mergedBox b1 b2).coversUpTo b2 ((2 : ℚ) ^ (K - 21)) := by
  obtain ⟨hl, hr, ht, hb⟩ := mergedBox_approx K hK E hE b1 b2 h1 h2
  rw [abs_le] at hl hr ht hb
  have a1 := min_le_left b1.left b2.left
  have a2 := min_le_right b1.left b2.left
  have a3 := le_max_left b1.right b2.right
  have a4 := le_max_right b1.right b2.right
  have a5 := min_le_left b1.top b2.top
  have a6 := min_le_right b1.top b2.top
  have a7 := le_max_left b1.bottom b2.bottom
  have a8 := le_max_right b1.bottom b2.bottom
  unfold RotatedRect.coversUpTo
  refine ⟨⟨?_, ?_, ?_, ?_⟩, ⟨?_, ?_, ?_, ?_⟩⟩ <;> linarith

theorem coversUpTo_refl (b : RotatedRect) {t : ℚ} (ht : 0 ≤ t) : b.coversUpTo b t := by
  unfold RotatedRect.coversUpTo
  refine ⟨?_, ?_, ?_, ?_⟩ <;> linarith

theorem coversUpTo_mono {c b : RotatedRect} {t t' : ℚ} (h : c.coversUpTo b t) (ht : t ≤ t') :
    c.coversUpTo b t' := by
  unfold RotatedRect.coversUpTo at h ⊢
  obtain ⟨h1, h2, h3, h4⟩ := h
  refine ⟨?_, ?_, ?_, ?_⟩ <;> linarith

theorem coversUpTo_trans {a b c : RotatedRect} {s t : ℚ} (hab : a.coversUpTo b s)
    (hbc : b.coversUpTo c t) : a.coversUpTo c (s + t) := by
  unfold RotatedRect.coversUpTo at hab hbc ⊢
  obtain ⟨h1, h2, h3, h4⟩ := hab
  obtain ⟨g1, g2, g3, g4⟩ := hbc
  refine ⟨?_, ?_, ?_, ?_⟩ <;> linarith

/-- Across the whole `while (merged)` loop every box of the input is contained, up
to `2 ^ (K - 21)` per merge performed, in a box of the output. -/
theorem mergeWhile_coversUpTo (K : ℤ) (hK : -126 ≤ K) :
    ∀ (fuel : Nat) (boxes : List RotatedRect) (E : ℚ),
      (∀ b ∈ boxes, b.within E) →
      E + ((boxes.length : ℚ) - 1) * (2 : ℚ) ^ (K - 21) ≤ (2 : ℚ) ^ K →
      ∀ b ∈ boxes, ∃ c ∈ mergeWhile fuel boxes,
        c.coversUpTo b ((mergeCountWhile fuel boxes : ℚ) * (2 : ℚ) ^ (K - 21)) := by
  have htpos : (0 : ℚ) < (2 : ℚ) ^ (K - 21) := by positivity
  intro fuel
  induction fuel with
  | zero =>
    intro boxes E _ _ b hb
    exact ⟨b, hb, coversUpTo_refl b (by simp [mergeCountWhile])⟩
  | succ n ih =>
    intro boxes E hin hE b hb
    unfold mergeWhile mergeCountWhile
    cases hp : mergePass boxes with
    | none => exact ⟨b, hb, coversUpTo_refl b (by simp)⟩
    | some boxes' =>
      simp only
      obtain ⟨pre, b1, mid, b2, post, h1, h2, _⟩ := mergePass_some boxes boxes' hp
      have hlen := mergePass_length boxes boxes' hp
      have hlenq : (boxes.length : ℚ) = (boxes'.length : ℚ) + 1 := by
        rw [← hlen]; push_cast; ring
      have hlen2 : (1 : ℚ) ≤ (boxes'.length : ℚ) := by
        have : 1 ≤ boxes'.length := by
          rw [h2]; simp; omega
        exact_mod_cast this
      have hE1 : E + (2 : ℚ) ^ (K - 21) ≤ (2 : ℚ) ^ K := by
        rw [hlenq] at hE
        nlinarith
      have hb1 : b1.within E := hin b1 (by rw [h1]; simp)
      have hb2 : b2.within E := hin b2 (by rw [h1]; simp)
      have hm := mergedBox_within K hK E hE1 b1 b2 hb1 hb2
      have hcov := mergedBox_coversUpTo K hK E hE1 b1 b2 hb1 hb2
      have hin' : ∀ x ∈ boxes', x.within (E + (2 : ℚ) ^ (K - 21)) := by
        intro x hx
        rw [h2] at hx
        simp only [List.mem_append, List.mem_cons] at hx
        rcases hx with hx | hx | hx | hx
        · exact within_mono (hin x (by rw [h1]; simp [hx])) (by linarith)
        · rw [hx]; exact hm
        · exact within_mono (hin x (by rw [h1]; simp [hx])) (by linarith)
        · exact within_mono (hin x (by rw [h1]; simp [hx])) (by linarith)
      have hE' : E + (2 : ℚ) ^ (K - 21) + ((boxes'.length : ℚ) - 1) * (2 : ℚ) ^ (K - 21) ≤
          (2 : ℚ) ^ K := by
        rw [hlenq] at hE
        linarith
      have hrec := ih boxes' (E + (2 : ℚ) ^ (K - 21)) hin' hE'
      have hcast : ((mergeCountWhile n boxes' + 1 : Nat) : ℚ) * (2 : ℚ) ^ (K - 21) =
          (mergeCountWhile n boxes' : ℚ) * (2 : ℚ) ^ (K - 21) + (2 : ℚ) ^ (K - 21) := by
        push_cast; ring
      rw [hcast]
      have hmmem : mergedBox b1 b2 ∈ boxes' := by rw [h2]; simp
      have same : ∀ x, x ∈ boxes' → ∃ c ∈ mergeWhile n boxes',
          c.coversUpTo x ((mergeCountWhile n boxes' : ℚ) * (2 : ℚ) ^ (K - 21) +
            (2 : ℚ) ^ (K - 21)) := by
        intro x hx
        obtain ⟨c, hc, hcx⟩ := hrec x hx
        exact ⟨c, hc, coversUpTo_mono hcx (by linarith)⟩
      have via : ∀ x, (mergedBox b1 b2).coversUpTo x ((2 : ℚ) ^ (K - 21)) →
          ∃ c ∈ mergeWhile n boxes',
            c.coversUpTo x ((mergeCountWhile n boxes' : ℚ) * (2 : ℚ) ^ (K - 21) +
              (2 : ℚ) ^ (K - 21)) := by
        intro x hx
        obtain ⟨c, hc, hcm⟩ := hrec _ hmmem
        exact ⟨c, hc, coversUpTo_trans hcm hx⟩
      rw [h1] at hb
      simp only [List.mem_append, List.mem_cons] at hb
      rcases hb with hb | hb | hb | hb | hb
      · exact same b (by rw [h2]; simp [hb])
      · rw [hb]; exact via b1 hcov.1
      · exact same b (by rw [h2]; simp [hb])
      · rw [hb]; exact via b2 hcov.2
      · exact same b (by rw [h2]; simp [hb])

/-! ## Properties of the box merger -/

/-- C9: the box merger is idempotent: applied to its own output it returns that
output unchanged. -/
theorem MergeNearbyBoxesPrecision_idempotent (boxes : List RotatedRect) :
    MergeNearbyBoxesPrecision (MergeNearbyBoxesPrecision boxes) =
      MergeNearbyBoxesPrecision boxes :=
  MergeNearbyBoxesPrecision_of_mergePass_none _ (mergePass_MergeNearbyBoxesPrecision boxes)

/-- C17: the merger terminates, after at most `n - 1` merges on `n` boxes. Each
merge removes exactly one box: output length plus number of merges is `n`. A
non-empty input gives between 1 and `n` boxes, an input of fewer than 2 boxes is
returned unchanged, and the loop ends by a pass without a merge however many
passes beyond `n` are allowed. -/
theorem MergeNearbyBoxesPrecision_terminates (boxes : List RotatedRect) :
    (MergeNearbyBoxesPrecision boxes).length + mergeCount boxes = boxes.length ∧
      mergeCount boxes ≤ boxes.length - 1 ∧
      (1 ≤ boxes.length → 1 ≤ (MergeNearbyBoxesPrecision boxes).length ∧
        (MergeNearbyBoxesPrecision boxes).length ≤ boxes.length) ∧
      (boxes.length < 2 → MergeNearbyBoxesPrecision boxes = boxes) ∧
      mergePass (MergeNearbyBoxesPrecision boxes) = none ∧
      ∀ fuel, boxes.length ≤ fuel → mergeWhile fuel boxes = mergeWhile boxes.length boxes := by
  have hlen : (MergeNearbyBoxesPrecision boxes).length + mergeCount boxes = boxes.length := by
    unfold MergeNearbyBoxesPrecision mergeCount
    split
    · simp
    · exact mergeWhile_length _ _
  have hcount : mergeCount boxes ≤ boxes.length - 1 := by
    unfold mergeCount
    split
    · exact Nat.zero_le _
    · exact mergeCountWhile_le _ _
  refine ⟨hlen, hcount, ?_, ?_, mergePass_MergeNearbyBoxesPrecision boxes, ?_⟩
  · intro h1
    constructor <;> omega
  · intro h2
    simp [MergeNearbyBoxesPrecision, h2]
  · intro fuel hf
    exact mergeWhile_fuel fuel boxes.length boxes hf (Nat.le_refl _)

/-- C19: every output box of the merger has the confidence of some input box, and
the maximum confidence over the output equals the maximum confidence over the
input (for the empty input both maxima are undefined, `⊥`). -/
theorem MergeNearbyBoxesPrecision_confidence (boxes : List RotatedRect) :
    (∀ c ∈ MergeNearbyBoxesPrecision boxes, ∃ b ∈ boxes, c.confidence = b.confidence) ∧
      ((MergeNearbyBoxesPrecision boxes).map (fun b => b.confidence)).maximum =
        (boxes.map (fun b => b.confidence)).maximum ∧
      (boxes ≠ [] → ∃ m : ℚ,
        ((MergeNearbyBoxesPrecision boxes).map (fun b => b.confidence)).maximum = (m : WithBot ℚ) ∧
          (boxes.map (fun b => b.confidence)).maximum = (m : WithBot ℚ)) := by
  have h := MergeNearbyBoxesPrecision_induction
    (fun l l' => (∀ c ∈ l', ∃ b ∈ l, c.confidence = b.confidence) ∧
      ∀ b ∈ l, ∃ c ∈ l', b.confidence ≤ c.confidence)
    (fun l => ⟨fun c hc => ⟨c, hc, rfl⟩, fun b hb => ⟨b, hb, le_refl _⟩⟩)
    (fun l1 l2 l3 h12 h23 => by
      constructor
      · intro c hc
        obtain ⟨b, hb, hcb⟩ := h23.1 c hc
        obtain ⟨a, ha, hba⟩ := h12.1 b hb
        exact ⟨a, ha, hcb.trans hba⟩
      · intro a ha
        obtain ⟨b, hb, hab⟩ := h12.2 a ha
        obtain ⟨c, hc, hbc⟩ := h23.2 b hb
        exact ⟨c, hc, le_trans hab hbc⟩)
    mergePass_confidence boxes
  obtain ⟨hsome, hle⟩ := h
  have hmax : ((MergeNearbyBoxesPrecision boxes).map (fun b => b.confidence)).maximum =
      (boxes.map (fun b => b.confidence)).maximum := by
    apply le_antisymm
    · apply List.maximum_le_of_forall_le
      intro a ha
      obtain ⟨c, hc, rfl⟩ := List.mem_map.mp ha
      obtain ⟨b, hb, hcb⟩ := hsome c hc
      rw [hcb]
      exact List.le_maximum_of_mem' (List.mem_map_of_mem _ hb)
    · apply List.maximum_le_of_forall_le
      intro a ha
      obtain ⟨b, hb, rfl⟩ := List.mem_map.mp ha
      obtain ⟨c, hc, hbc⟩ := hle b hb
      exact le_trans (WithBot.coe_le_coe.mpr hbc)
        (List.le_maximum_of_mem' (List.mem_map_of_mem (fun b => b.confidence) hc))
  refine ⟨hsome, hmax, ?_⟩
  intro hne
  have hne' : boxes.map (fun b => b.confidence) ≠ [] := by simpa using hne
  obtain ⟨m, hm⟩ := WithBot.ne_bot_iff_exists.mp (List.maximum_ne_bot_of_ne_nil hne')
  exact ⟨m, by rw [hmax, hm], hm.symm⟩

/-! ## Rounding in the merge test -/

theorem zpow_two_split (K : ℤ) : (2 : ℚ) ^ K = 16777216 * (2 : ℚ) ^ (K - 24) := by
  have : K = (K - 24) + 24 := by ring
  nth_rewrite 1 [this]
  rw [zpow_add₀ (by norm_num : (2 : ℚ) ≠ 0)]
  norm_num
  ring

/-- The horizontal distance of line 93, `std::abs(cx1 - cx2) - (w1 + w2) / 2.0f`:
with `|cx1 - cx2|` and `|w1 + w2|` at most `2 ^ K` and the distance itself below
`2 ^ M`, the `float` result is within `5/2 * 2 ^ (K - 24) + 2 ^ (M - 24)` of the
exact distance. -/
theorem xdist_err (K M : ℤ) (hK : -126 ≤ K) (hM : -126 ≤ M) (c1 c2 w1 w2 : ℚ)
    (hc : |c1 - c2| ≤ (2 : ℚ) ^ K) (hw : |w1 + w2| ≤ (2 : ℚ) ^ K)
    (hg : abs (|c1 - c2| - (w1 + w2) / 2) + 3 * (2 : ℚ) ^ (K - 24) ≤ (2 : ℚ) ^ M) :
    |fsub |fsub c1 c2| (fdiv (fadd w1 w2) 2) - (|c1 - c2| - (w1 + w2) / 2)| ≤
      5 / 2 * (2 : ℚ) ^ (K - 24) + (2 : ℚ) ^ (M - 24) := by
  have hsplit := zpow_two_split K
  have hepos : (0 : ℚ) < (2 : ℚ) ^ (K - 24) := by positivity
  have hA : |fsub c1 c2 - (c1 - c2)| ≤ (2 : ℚ) ^ (K - 24) := f32_err _ K hK hc
  have hS : |fadd w1 w2 - (w1 + w2)| ≤ (2 : ℚ) ^ (K - 24) := f32_err _ K hK hw
  have hH : |fdiv (fadd w1 w2) 2 - fadd w1 w2 / 2| ≤ (2 : ℚ) ^ (K - 24) := by
    apply f32_err _ K hK
    rw [abs_le] at hS hw ⊢
    constructor <;> linarith
  have hAA : abs (|fsub c1 c2| - |c1 - c2|) ≤ (2 : ℚ) ^ (K - 24) :=
    (abs_abs_sub_abs_le_abs_sub _ _).trans hA
  have hX : |fsub |fsub c1 c2| (fdiv (fadd w1 w2) 2) -
      (|fsub c1 c2| - fdiv (fadd w1 w2) 2)| ≤ (2 : ℚ) ^ (M - 24) := by
    apply f32_err _ M hM
    refine le_trans ?_ hg
    rw [abs_le] at hAA hS hH ⊢
    have hg' := abs_le.mp (le_refl (abs (|c1 - c2| - (w1 + w2) / 2)))
    constructor <;> linarith
  rw [abs_le] at hAA hS hH hX ⊢
  constructor <;> linarith

theorem within_center_x {b : RotatedRect} {E : ℚ} (h : b.within E) :
    |b.center_x| ≤ E ∧ |b.width| ≤ 2 * E := by
  obtain ⟨hl, hr, _, _⟩ := h
  unfold RotatedRect.left at hl
  unfold RotatedRect.right at hr
  rw [abs_le] at hl hr
  constructor <;> rw [abs_le] <;> constructor <;> linarith

/-- C10, as stated, fails: the boxes centred at (130.5, 254.325f) and
(144.75, 255.325f), 12.5 resp. 10 wide and 20 high, have vertical offset 1 and
horizontal gap 3 and are merged into one box, of height 21.0000152587890625
and with a top extent 1/131072 greater than the smaller of the two top
extents. -/
theorem MergeNearbyBoxesPrecision_merge_example_exact_fails :
    roundedBoxLeft.isFloat ∧ roundedBoxRight.isFloat ∧
      roundedBoxLeft.height = 20 ∧ roundedBoxRight.height = 20 ∧
      |roundedBoxLeft.center_y - roundedBoxRight.center_y| = 1 ∧
      |roundedBoxLeft.center_x - roundedBoxRight.center_x| -
        (roundedBoxLeft.width + roundedBoxRight.width) / 2 = 3 ∧
      MergeNearbyBoxesPrecision [roundedBoxLeft, roundedBoxRight] =
        [{ center_x := 137, center_y := 4175053 / 16384, width := 51 / 2,
           height := 1376257 / 65536, confidence := 3 / 4 }] ∧
      ¬ ∀ c ∈ MergeNearbyBoxesPrecision [roundedBoxLeft, roundedBoxRight],
        c.left = min roundedBoxLeft.left roundedBoxRight.left ∧
          c.right = max roundedBoxLeft.right roundedBoxRight.right ∧
          c.top = min roundedBoxLeft.top roundedBoxRight.top ∧
          c.bottom = max roundedBoxLeft.bottom roundedBoxRight.bottom := by
  decide!

theorem f32_one : f32 1 = 1 := by decide!

/-- A difference of exactly 1 between two centres is not changed by rounding. -/
theorem abs_fsub_one {a b : ℚ} (h : |a - b| = 1) : |fsub a b| = 1 := by
  unfold fsub
  rcases abs_eq (by norm_num : (0 : ℚ) ≤ 1) |>.mp h with h | h
  · rw [h, f32_one]; norm_num
  · rw [h, f32_neg, f32_one]; norm_num

theorem merge_thresholds_20 :
    fmul (fdiv (fadd 20 20) 2) (f32 (15 / 100)) = 3 ∧
      fmul (fdiv (fadd 20 20) 2) (f32 (20 / 100)) = 4 := by
  decide!

/-- C10, amended: two boxes of height 20 whose centres are 1 apart vertically and
whose horizontal gap is 3, with extents in `[-E, E]` where
`E + 2 ^ (K - 21) <= 2 ^ K` and `0 <= K <= 20`, are merged into exactly one box, the
one the code computes in `float` arithmetic. Its left, right, top and bottom
extents are within `2 ^ (K - 21)` of the minimum resp. maximum of the two
inputs' extents, its centre is within `2 ^ (K - 21)` and its size within
`2 ^ (K - 20)` of the centre and size of that envelope, and its confidence is
the maximum of the two confidences. -/
theorem MergeNearbyBoxesPrecision_merge_example (K : ℤ) (hK0 : 0 ≤ K) (hK : K ≤ 20) (E : ℚ)
    (hE : E + (2 : ℚ) ^ (K - 21) ≤ (2 : ℚ) ^ K) (b1 b2 : RotatedRect)
    (hin1 : b1.within E) (hin2 : b2.within E)
    (hh1 : b1.height = 20) (hh2 : b2.height = 20)
    (hdy : |b1.center_y - b2.center_y| = 1)
    (hgap : |b1.center_x - b2.center_x| - (b1.width + b2.width) / 2 = 3) :
    MergeNearbyBoxesPrecision [b1, b2] = [mergedBox b1 b2] ∧
      |(mergedBox b1 b2).left - min b1.left b2.left| ≤ (2 : ℚ) ^ (K - 21) ∧
      |(mergedBox b1 b2).right - max b1.right b2.right| ≤ (2 : ℚ) ^ (K - 21) ∧
      |(mergedBox b1 b2).top - min b1.top b2.top| ≤ (2 : ℚ) ^ (K - 21) ∧
      |(mergedBox b1 b2).bottom - max b1.bottom b2.bottom| ≤ (2 : ℚ) ^ (K - 21) ∧
      |(mergedBox b1 b2).center_x - (min b1.left b2.left + max b1.right b2.right) / 2| ≤
        (2 : ℚ) ^ (K - 21) ∧
      |(mergedBox b1 b2).center_y - (min b1.top b2.top + max b1.bottom b2.bottom) / 2| ≤
        (2 : ℚ) ^ (K - 21) ∧
      |(mergedBox b1 b2).width - (max b1.right b2.right - min b1.left b2.left)| ≤
        (2 : ℚ) ^ (K - 20) ∧
      |(mergedBox b1 b2).height - (max b1.bottom b2.bottom - min b1.top b2.top)| ≤
        (2 : ℚ) ^ (K - 20) ∧
      (mergedBox b1 b2).confidence = max b1.confidence b2.confidence := by
  have hKK : (2 : ℚ) ^ K ≤ (2 : ℚ) ^ (20 : ℤ) := zpow_le_zpow_right₀ (by norm_num) hK
  have htpos : (0 : ℚ) < (2 : ℚ) ^ (K - 21) := by positivity
  have hE20 : E ≤ 1048576 := by
    have : (2 : ℚ) ^ (20 : ℤ) = 1048576 := by norm_num
    linarith
  have hcond : mergeCondition b1 b2 = true := by
    obtain ⟨hc1, hw1⟩ := within_center_x hin1
    obtain ⟨hc2, hw2⟩ := within_center_x hin2
    have hx := xdist_err 22 2 (by norm_num) (by norm_num) b1.center_x b2.center_x
      b1.width b2.width
      (by
        rw [abs_le] at hc1 hc2 ⊢
        norm_num
        constructor <;> linarith)
      (by
        rw [abs_le] at hw1 hw2 ⊢
        norm_num
        constructor <;> linarith)
      (by rw [hgap]; norm_num)
    rw [hgap] at hx
    have hx2 : fsub |fsub b1.center_x b2.center_x| (fdiv (fadd b1.width b2.width) 2) < 4 := by
      rw [abs_le] at hx
      norm_num at hx
      linarith [hx.2]
    have hd : |fsub b1.center_y b2.center_y| = 1 := abs_fsub_one hdy
    unfold mergeCondition
    simp only [hh1, hh2, hd, merge_thresholds_20.1, merge_thresholds_20.2]
    norm_num [hx2]
  obtain ⟨hl, hr, ht, hb⟩ := mergedBox_approx K (by omega) E hE b1 b2 hin1 hin2
  have h20 : (2 : ℚ) ^ (K - 20) = 2 * (2 : ℚ) ^ (K - 21) := by
    have : K - 20 = (K - 21) + 1 := by ring
    rw [this, zpow_add₀ (by norm_num : (2 : ℚ) ≠ 0)]
    norm_num
    ring
  have hcx : (mergedBox b1 b2).center_x =
      ((mergedBox b1 b2).left + (mergedBox b1 b2).right) / 2 := by
    unfold RotatedRect.left RotatedRect.right; ring
  have hcy : (mergedBox b1 b2).center_y =
      ((mergedBox b1 b2).top + (mergedBox b1 b2).bottom) / 2 := by
    unfold RotatedRect.top RotatedRect.bottom; ring
  have hwd : (mergedBox b1 b2).width = (mergedBox b1 b2).right - (mergedBox b1 b2).left := by
    unfold RotatedRect.left RotatedRect.right; ring
  have hht : (mergedBox b1 b2).height = (mergedBox b1 b2).bottom - (mergedBox b1 b2).top := by
    unfold RotatedRect.top RotatedRect.bottom; ring
  refine ⟨?_, hl, hr, ht, hb, ?_, ?_, ?_, ?_, rfl⟩
  · simp [MergeNearbyBoxesPrecision, mergeWhile, mergePass, mergeInner, hcond]
  · rw [hcx]; rw [abs_le] at hl hr ⊢; constructor <;> linarith
  · rw [hcy]; rw [abs_le] at ht hb ⊢; constructor <;> linarith
  · rw [hwd, h20]; rw [abs_le] at hl hr ⊢; constructor <;> linarith
  · rw [hht, h20]; rw [abs_le] at ht hb ⊢; constructor <;> linarith

/-- Instance of `MergeNearbyBoxesPrecision_merge_example`: the two boxes at which the
exact envelope is missed, with extents below 300 (`K = 9`); the merged box is
within `2 ^ (-12)` of the envelope. -/
theorem MergeNearbyBoxesPrecision_merge_example_witness :
    MergeNearbyBoxesPrecision [roundedBoxLeft, roundedBoxRight] =
        [mergedBox roundedBoxLeft roundedBoxRight] ∧
      |(mergedBox roundedBoxLeft roundedBoxRight).top -
          min roundedBoxLeft.top roundedBoxRight.top| ≤ (2 : ℚ) ^ ((9 : ℤ) - 21) ∧
      (mergedBox roundedBoxLeft roundedBoxRight).confidence = 3 / 4 :=
  ⟨(MergeNearbyBoxesPrecision_merge_example 9 (by norm_num) (by norm_num) 300 (by norm_num)
      roundedBoxLeft roundedBoxRight (by decide!) (by decide!) rfl rfl
      (by decide!) (by decide!)).1,
    (MergeNearbyBoxesPrecision_merge_example 9 (by norm_num) (by norm_num) 300 (by norm_num)
      roundedBoxLeft roundedBoxRight (by decide!) (by decide!) rfl rfl
      (by decide!) (by decide!)).2.2.2.1,
    by decide!⟩

theorem f32_consts :
    f32 (15 / 100) = 5033165 / 33554432 ∧ f32 (20 / 100) = 13421773 / 67108864 := by
  decide!

/-- The thresholds of lines 92 and 97, `h_avg * 0.15f` and `h_avg * 0.20f`: with
both heights at most `2 ^ K` in magnitude and `c'` the `float` factor for the
ratio `c`, the `float` threshold is within `3/2 * 2 ^ (K - 24)` of
`c * (h1 + h2) / 2`. -/
theorem threshold_err (K : ℤ) (hK : -125 ≤ K) (h1 h2 c c' : ℚ)
    (hh1 : |h1| ≤ (2 : ℚ) ^ K) (hh2 : |h2| ≤ (2 : ℚ) ^ K)
    (hc0 : 0 ≤ c') (hc4 : c' ≤ 1 / 4) (hcc : |c' - c| ≤ 1 / 67108864) :
    |fmul (fdiv (fadd h1 h2) 2) c' - c * ((h1 + h2) / 2)| ≤ 3 / 2 * (2 : ℚ) ^ (K - 24) := by
  have hsplit := zpow_two_split K
  have hP := zpow_two_add_one K
  have h2e := zpow_two_add_one_sub_24 K
  have hhalf : (2 : ℚ) ^ (K - 1 - 24) = (2 : ℚ) ^ (K - 24) / 2 := by
    have : K - 1 - 24 = (K - 24) + (-1) := by ring
    rw [this, zpow_add₀ (by norm_num : (2 : ℚ) ≠ 0)]
    norm_num
    ring
  have hPh : (2 : ℚ) ^ (K - 1) = (2 : ℚ) ^ K / 2 := by
    have : K - 1 = K + (-1) := by ring
    rw [this, zpow_add₀ (by norm_num : (2 : ℚ) ≠ 0)]
    norm_num
    ring
  have hepos : (0 : ℚ) < (2 : ℚ) ^ (K - 24) := by positivity
  have hs : |fadd h1 h2 - (h1 + h2)| ≤ (2 : ℚ) ^ (K + 1 - 24) := by
    apply f32_err _ (K + 1) (by omega)
    rw [abs_le] at hh1 hh2 ⊢
    constructor <;> linarith
  have hH : |fdiv (fadd h1 h2) 2 - fadd h1 h2 / 2| ≤ (2 : ℚ) ^ (K + 1 - 24) := by
    apply f32_err _ (K + 1) (by omega)
    rw [abs_le] at hs hh1 hh2 ⊢
    constructor <;> linarith
  rw [h2e] at hs hH
  have hHh : |fdiv (fadd h1 h2) 2 - (h1 + h2) / 2| ≤ 3 * (2 : ℚ) ^ (K - 24) := by
    rw [abs_le] at hs hH ⊢
    constructor <;> linarith
  have hHabs : |fdiv (fadd h1 h2) 2| ≤ (2 : ℚ) ^ K + 3 * (2 : ℚ) ^ (K - 24) := by
    rw [abs_le] at hHh hh1 hh2 ⊢
    constructor <;> linarith
  have havg : |(h1 + h2) / 2| ≤ (2 : ℚ) ^ K := by
    rw [abs_le] at hh1 hh2 ⊢
    constructor <;> linarith
  have hprod : |fdiv (fadd h1 h2) 2 * c'| ≤ (2 : ℚ) ^ (K - 1) := by
    rw [abs_mul, abs_of_nonneg hc0, hPh]
    calc |fdiv (fadd h1 h2) 2| * c'
        ≤ ((2 : ℚ) ^ K + 3 * (2 : ℚ) ^ (K - 24)) * (1 / 4) :=
          mul_le_mul hHabs hc4 hc0 (by positivity)
      _ ≤ (2 : ℚ) ^ K / 2 := by linarith
  have hT : |fmul (fdiv (fadd h1 h2) 2) c' - fdiv (fadd h1 h2) 2 * c'| ≤
      (2 : ℚ) ^ (K - 24) / 2 := by
    rw [← hhalf]
    exact f32_err _ (K - 1) (by omega) hprod
  have hA : |c' * (fdiv (fadd h1 h2) 2 - (h1 + h2) / 2)| ≤ 3 / 4 * (2 : ℚ) ^ (K - 24) := by
    rw [abs_mul, abs_of_nonneg hc0]
    calc c' * |fdiv (fadd h1 h2) 2 - (h1 + h2) / 2|
        ≤ (1 / 4) * (3 * (2 : ℚ) ^ (K - 24)) :=
          mul_le_mul hc4 hHh (abs_nonneg _) (by norm_num)
      _ = 3 / 4 * (2 : ℚ) ^ (K - 24) := by ring
  have hB : |(c' - c) * ((h1 + h2) / 2)| ≤ (2 : ℚ) ^ (K - 24) / 4 := by
    rw [abs_mul]
    calc |c' - c| * |(h1 + h2) / 2|
        ≤ (1 / 67108864) * (2 : ℚ) ^ K :=
          mul_le_mul hcc havg (abs_nonneg _) (by norm_num)
      _ = (2 : ℚ) ^ (K - 24) / 4 := by rw [hsplit]; ring
  have hsum : fmul (fdiv (fadd h1 h2) 2) c' - c * ((h1 + h2) / 2) =
      (fmul (fdiv (fadd h1 h2) 2) c' - fdiv (fadd h1 h2) 2 * c') +
        c' * (fdiv (fadd h1 h2) 2 - (h1 + h2) / 2) + (c' - c) * ((h1 + h2) / 2) := by ring
  rw [hsum]
  rw [abs_le] at hT hA hB ⊢
  constructor <;> linarith

theorem within_fields {b : RotatedRect} {E : ℚ} (h : b.within E) :
    |b.center_x| ≤ 2 * E ∧ |b.width| ≤ 2 * E ∧ |b.center_y| ≤ 2 * E ∧ |b.height| ≤ 2 * E := by
  obtain ⟨hl, hr, ht, hb⟩ := h
  unfold RotatedRect.left at hl
  unfold RotatedRect.right at hr
  unfold RotatedRect.top at ht
  unfold RotatedRect.bottom at hb
  rw [abs_le] at hl hr ht hb
  refine ⟨?_, ?_, ?_, ?_⟩ <;> rw [abs_le] <;> constructor <;> linarith

/-- Two boxes with extents in `[-2 ^ K, 2 ^ K]` that pass the tests of the
specification with a margin of `2 ^ (K - 19)` pass the `float` tests of the code. -/
theorem mergeCondition_of_margin (K : ℤ) (hK : -125 ≤ K) (b1 b2 : RotatedRect)
    (hin1 : b1.within ((2 : ℚ) ^ K)) (hin2 : b2.within ((2 : ℚ) ^ K))
    (hdy : |b1.center_y - b2.center_y| <
      15 / 100 * ((b1.height + b2.height) / 2) - (2 : ℚ) ^ (K - 19))
    (hgap : |b1.center_x - b2.center_x| - (b1.width + b2.width) / 2 <
      20 / 100 * ((b1.height + b2.height) / 2) - (2 : ℚ) ^ (K - 19)) :
    mergeCondition b1 b2 = true := by
  obtain ⟨hx1, hw1, hy1, hh1⟩ := within_fields hin1
  obtain ⟨hx2, hw2, hy2, hh2⟩ := within_fields hin2
  have hP := zpow_two_add_one K
  have hP2 : (2 : ℚ) ^ (K + 2) = 4 * (2 : ℚ) ^ K := by
    rw [zpow_add₀ (by norm_num : (2 : ℚ) ≠ 0)]
    norm_num
    ring
  have hsplit := zpow_two_split K
  have hm : (2 : ℚ) ^ (K - 19) = 32 * (2 : ℚ) ^ (K - 24) := by
    have : K - 19 = (K - 24) + 5 := by ring
    rw [this, zpow_add₀ (by norm_num : (2 : ℚ) ≠ 0)]
    norm_num
    ring
  have he1 : (2 : ℚ) ^ (K + 1 - 24) = 2 * (2 : ℚ) ^ (K - 24) := zpow_two_add_one_sub_24 K
  have he2 : (2 : ℚ) ^ (K + 2 - 24) = 4 * (2 : ℚ) ^ (K - 24) := by
    have : K + 2 - 24 = (K - 24) + 2 := by ring
    rw [this, zpow_add₀ (by norm_num : (2 : ℚ) ≠ 0)]
    norm_num
    ring
  have he3 : (2 : ℚ) ^ (K + 3 - 24) = 8 * (2 : ℚ) ^ (K - 24) := by
    have : K + 3 - 24 = (K - 24) + 3 := by ring
    rw [this, zpow_add₀ (by norm_num : (2 : ℚ) ≠ 0)]
    norm_num
    ring
  have hP3 : (2 : ℚ) ^ (K + 3) = 8 * (2 : ℚ) ^ K := by
    rw [zpow_add₀ (by norm_num : (2 : ℚ) ≠ 0)]
    norm_num
    ring
  have hepos : (0 : ℚ) < (2 : ℚ) ^ (K - 24) := by positivity
  rw [← hP] at hx1 hw1 hy1 hh1 hx2 hw2 hy2 hh2
  -- thresholds
  have ht15 := threshold_err (K + 1) (by omega) b1.height b2.height (15 / 100)
    (5033165 / 33554432) hh1 hh2 (by norm_num) (by norm_num) (by rw [abs_le]; norm_num)
  have ht20 := threshold_err (K + 1) (by omega) b1.height b2.height (20 / 100)
    (13421773 / 67108864) hh1 hh2 (by norm_num) (by norm_num) (by rw [abs_le]; norm_num)
  rw [he1] at ht15 ht20
  -- vertical distance
  have hD : |fsub b1.center_y b2.center_y - (b1.center_y - b2.center_y)| ≤
      (2 : ℚ) ^ (K + 2 - 24) := by
    apply f32_err _ (K + 2) (by omega)
    rw [hP2]
    rw [hP] at hy1 hy2
    rw [abs_le] at hy1 hy2 ⊢
    constructor <;> linarith
  have hDD : abs (|fsub b1.center_y b2.center_y| - |b1.center_y - b2.center_y|) ≤
      (2 : ℚ) ^ (K + 2 - 24) := (abs_abs_sub_abs_le_abs_sub _ _).trans hD
  rw [he2] at hDD
  -- horizontal distance
  have hcx : |b1.center_x - b2.center_x| ≤ (2 : ℚ) ^ (K + 2) := by
    rw [hP2]
    rw [hP] at hx1 hx2
    rw [abs_le] at hx1 hx2 ⊢
    constructor <;> linarith
  have hww : |b1.width + b2.width| ≤ (2 : ℚ) ^ (K + 2) := by
    rw [hP2]
    rw [hP] at hw1 hw2
    rw [abs_le] at hw1 hw2 ⊢
    constructor <;> linarith
  have hX := xdist_err (K + 2) (K + 3) (by omega) (by omega) b1.center_x b2.center_x
    b1.width b2.width hcx hww (by
      rw [he2, hP3]
      rw [hP2] at hcx hww
      have h1 := abs_nonneg (b1.center_x - b2.center_x)
      have habs : abs (|b1.center_x - b2.center_x| - (b1.width + b2.width) / 2) ≤
          6 * (2 : ℚ) ^ K := by
        rw [abs_le] at hww ⊢
        constructor <;> linarith
      linarith)
  rw [he2, he3] at hX
  rw [hm] at hdy hgap
  unfold mergeCondition
  rw [f32_consts.1, f32_consts.2]
  have c1 : |fsub b1.center_y b2.center_y| <
      fmul (fdiv (fadd b1.height b2.height) 2) (5033165 / 33554432) := by
    rw [abs_le] at hDD ht15
    linarith
  have c2 : fsub |fsub b1.center_x b2.center_x| (fdiv (fadd b1.width b2.width) 2) <
      fmul (fdiv (fadd b1.height b2.height) 2) (13421773 / 67108864) := by
    rw [abs_le] at hX ht20
    linarith
  simp [c1, c2]

/-! ## Stability of the merger's output -/

/-- Two different members of a list occur in it in one order or the other. -/
theorem pair_sublist_or {α : Type} {a b : α} (hab : a ≠ b) :
    ∀ (l : List α), a ∈ l → b ∈ l → List.Sublist [a, b] l ∨ List.Sublist [b, a] l := by
  intro l
  induction l with
  | nil => intro ha; simp at ha
  | cons x t ih =>
    intro ha hb
    rcases List.mem_cons.mp ha with hax | hat
    · rcases List.mem_cons.mp hb with hbx | hbt
      · exact absurd (hax.trans hbx.symm) hab
      · left
        rw [hax]
        exact (List.singleton_sublist.mpr hbt).cons₂ x
    · rcases List.mem_cons.mp hb with hbx | hbt
      · right
        rw [hbx]
        exact (List.singleton_sublist.mpr hat).cons₂ x
      · rcases ih hat hbt with h | h
        · exact Or.inl (h.cons x)
        · exact Or.inr (h.cons x)

/-- Outputs of `gnuSort` on indices compared by key, larger key first: sixteen
entries (insertion sort alone, ties stay in order), thirty-three entries with
many ties, and forty distinct keys. They are the outputs of `std::sort` of
GCC 12 on the same inputs. -/
theorem gnuSort_examples :
    gnuSort (largerKeyFirst [3, 5, 2, 3, 5, 5, 4, 3, 3, 3, 4, 0, 4, 4, 0, 2]) (List.range 16) =
        [1, 4, 5, 6, 10, 12, 13, 0, 3, 7, 8, 9, 2, 15, 11, 14] ∧
      gnuSort (largerKeyFirst [1, 2, 1, 1, 0, 2, 2, 0, 2, 1, 1, 0, 1, 1, 0, 1, 0, 0, 0, 2, 0, 0,
          0, 1, 1, 0, 2, 2, 0, 1, 2, 0, 2]) (List.range 33) =
        [1, 32, 30, 27, 26, 19, 8, 6, 5, 0, 2, 29, 3, 24, 23, 15, 9, 10, 13, 12, 7, 31, 28, 11,
          4, 25, 22, 21, 20, 14, 18, 17, 16] ∧
      gnuSort (largerKeyFirst [787, 134, 429, 659, 392, 119, 404, 430, 217, 0, 276, 885, 994,
          998, 822, 606, 311, 906, 20, 215, 191, 403, 874, 616, 657, 590, 102, 43, 149, 218,
          452, 264, 9, 791, 624, 336, 850, 303, 395, 75]) (List.range 40) =
        [13, 12, 17, 11, 22, 36, 14, 33, 0, 3, 24, 34, 23, 15, 25, 30, 7, 2, 6, 21, 38, 4, 35,
          16, 37, 10, 31, 29, 8, 19, 20, 28, 1, 5, 26, 39, 27, 18, 32, 9] := by
  decide!

end ppocrv5
